import Mathlib

/-!
# Generated registry sections of an AWS config file

A shallow embedding of `pkg/granted/registry/sections.go`.

The ini document is an ordered list of sections.  The functions of the source
file are embedded one by one under their own names.  What the source file
consumes from elsewhere is kept apart:

* the ini store (`Sections`, `SectionStrings`, `NewSection`, `NewSections`,
  `DeleteSection`, the comment and field assignment) is modelled from the
  interface description of the specification;
* `cfaws.IsLegalProfileName`, `parseGitURL` and `GetAutogeneratedTemplate` are
  parameters, bundled in `Collaborators`.

Loading and saving are the identity on the document: every operation is the
function from the loaded document to the document that is saved.
-/

set_option autoImplicit false

namespace Registry

/-! ## The ini store -/

/-- A section of the document: its name, its comment and its key/value pairs. -/
structure Section where
  name : String
  comment : String
  keys : List (String × String)
deriving DecidableEq, Repr

/-- The document: the ordered sequence of its sections, as `File.Sections()` lists them. -/
abbrev File := List Section

/-- The reserved name of the ungrouped section (`ini.DefaultSection`). -/
def DefaultSection : String := "DEFAULT"

/-- Errors of the store. -/
inductive StoreError where
  | duplicateSection (name : String)
deriving DecidableEq, Repr

/-- The names of the sections in document order (`File.SectionStrings()`). -/
def SectionStrings (f : File) : List String := f.map (fun s => s.name)

/-- Modelled from the spec: the store's `NewSection(Document, name) → SectionRef | error
(error if name exists)`.  The ini package is not part of the source file.  A fresh
section has no comment and no keys and is appended at the end of the document. -/
def NewSection (f : File) (name : String) : Except StoreError File :=
  if name ∈ SectionStrings f then .error (.duplicateSection name)
  else .ok (f ++ [⟨name, "", []⟩])

/-- Modelled from the spec: `NewSections`, called in the source with one name only, is
`NewSection` without the returned reference. -/
def NewSections (f : File) (name : String) : Except StoreError File :=
  NewSection f name

/-- Modelled from the spec: the store's `DeleteSection(Document, name)`: the section of
that name leaves the document, the others keep their order. -/
def DeleteSection (f : File) (name : String) : File :=
  f.filter (fun s => s.name != name)

/-- Modelled from the spec: `configFile.Section(name).Comment = c`, the assignment of a
comment to the section of that name. -/
def setComment (f : File) (name : String) (c : String) : File :=
  f.map (fun s => if s.name = name then { s with comment := c } else s)

/-- Modelled from the spec: the "section field copy (comment + key/values)" written
`*f = *sec` in the source, where `f` is the section just created under `name`: the
section keeps its place and its name in the document and takes comment and keys. -/
def assignSection (f : File) (name : String) (comment : String)
    (keys : List (String × String)) : File :=
  f.map (fun s => if s.name = name then ⟨s.name, comment, keys⟩ else s)

/-! ## Strings -/

/-- Go `strings.HasPrefix`. -/
def HasPrefix (s p : String) : Bool := p.data.isPrefixOf s.data

/-- Go `strings.TrimPrefix`. -/
def TrimPrefix (s p : String) : String :=
  if HasPrefix s p then ⟨s.data.drop p.data.length⟩ else s

/-- Go `strings.Join`. -/
def Join : List String → String → String
  | [], _ => ""
  | [a], _ => a
  | a :: b :: rest, sep => a ++ sep ++ Join (b :: rest) sep

/-- Source `Contains`: linear search for `s`. -/
def Contains : List String → String → Bool
  | [], _ => false
  | v :: arr, s => if v = s then true else Contains arr s

/-! ## Collaborators from outside the source file -/

/-- The components of a parsed registry URL that `formatURLToNamespace` reads. -/
structure GitURL where
  Repo : String
  Subpath : String
  Filename : String
deriving DecidableEq, Repr

/-- The functions the source file calls and does not define. -/
structure Collaborators where
  /-- `cfaws.IsLegalProfileName` -/
  IsLegalProfileName : String → Bool
  /-- `parseGitURL`, its error dropped as in the source -/
  parseGitURL : String → GitURL
  /-- `GetAutogeneratedTemplate()` -/
  GetAutogeneratedTemplate : String

/-! ## The scanners -/

/-- The loop shared, statement for statement, by `getGrantedGeneratedSections` and
`getGeneratedSectionByRegistryURL`; they differ in the two marker strings only.
`inBlock` is the variable `isAutogeneratedSection`. -/
def scanSections (startMarker endMarker : String) : Bool → List Section → List Section
  | _, [] => []
  | inBlock, s :: rest =>
    if s.name = DefaultSection then scanSections startMarker endMarker inBlock rest
    else if HasPrefix s.name startMarker && !inBlock then
      s :: scanSections startMarker endMarker true rest
    else if HasPrefix s.name endMarker then
      s :: scanSections startMarker endMarker false rest
    else if inBlock then s :: scanSections startMarker endMarker inBlock rest
    else scanSections startMarker endMarker inBlock rest

/-- Source `getGrantedGeneratedSections`. -/
def getGrantedGeneratedSections (config : File) : List Section :=
  scanSections "granted_registry_start" "granted_registry_end" false config

/-- Source `getGeneratedSectionByRegistryURL`. -/
def getGeneratedSectionByRegistryURL (config : File) (repoURL : String) : List Section :=
  scanSections ("granted_registry_start " ++ repoURL) ("granted_registry_end " ++ repoURL)
    false config

/-- The deletion loop `for _, p := range profiles { cFile.DeleteSection(p.Name()) }`. -/
def deleteSections (f : File) (profiles : List Section) : File :=
  profiles.foldl (fun acc p => DeleteSection acc p.name) f

/-- Source `RemoveAutogeneratedProfileByRegistryURL`, from the loaded document to the
saved one. -/
def RemoveAutogeneratedProfileByRegistryURL (cFile : File) (repoURL : String) : File :=
  deleteSections cFile (getGeneratedSectionByRegistryURL cFile repoURL)

/-- Source `removeAutogeneratedProfiles`, from the document passed in to the saved one. -/
def removeAutogeneratedProfiles (configFile : File) : File :=
  let grantedProfiles := getGrantedGeneratedSections configFile
  if grantedProfiles.length > 1 then deleteSections configFile grantedProfiles
  else configFile

/-- First loop of `getNonGrantedProfiles`: the names of the sections taken as generated.
Unlike the scanners it has no test for the default section. -/
def grantedProfileNames : Bool → List Section → List String
  | _, [] => []
  | inBlock, s :: rest =>
    if HasPrefix s.name "granted_registry_start" && !inBlock then
      s.name :: grantedProfileNames true rest
    else if HasPrefix s.name "granted_registry_end" then
      s.name :: grantedProfileNames false rest
    else if inBlock then s.name :: grantedProfileNames inBlock rest
    else grantedProfileNames inBlock rest

/-- Second loop of `getNonGrantedProfiles`. -/
def keepNonGranted (grantedProfiles : List String) : List Section → List Section
  | [] => []
  | sec :: rest =>
    if sec.name = DefaultSection then keepNonGranted grantedProfiles rest
    else if !Contains grantedProfiles sec.name then sec :: keepNonGranted grantedProfiles rest
    else keepNonGranted grantedProfiles rest

/-- Source `getNonGrantedProfiles`. -/
def getNonGrantedProfiles (config : File) : List Section :=
  keepNonGranted (grantedProfileNames false config) config

/-! ## Namespaces and renaming -/

/-- Source `formatURLToNamespace`. -/
def formatURLToNamespace (env : Collaborators) (repoURL : String) : String :=
  let u := env.parseGitURL repoURL
  let namespaceArr := [u.Repo]
  let namespaceArr := if u.Subpath ≠ "" then namespaceArr ++ [u.Subpath] else namespaceArr
  let namespaceArr := if u.Filename ≠ "" then namespaceArr ++ [u.Filename] else namespaceArr
  Join namespaceArr "_"

/-- The class `\s` of Go regular expressions: tab, newline, form feed, carriage return,
blank. -/
def isRegexSpace (c : Char) : Bool :=
  c = '\t' || c = '\n' || c = '\x0c' || c = '\r' || c = ' '

/-- The tail `profile\s+(?P<name>[^\n\r]*)` of the pattern matched at the head of the
input: the captured name, when the tail matches.  Both repetitions are greedy and what
follows them can match the empty string, so each takes all it can. -/
def matchProfileTail (s : List Char) : Option (List Char) :=
  if "profile".data.isPrefixOf s then
    let rest := s.drop 7
    match rest with
    | [] => none
    | c :: _ =>
      if isRegexSpace c then
        some ((rest.dropWhile isRegexSpace).takeWhile (fun d => d != '\n' && d != '\r'))
      else none
  else none

/-- The whole pattern `(.*profile\s+)(?P<name>[^\n\r]*)` matched at the head of the
input, with the preference order of a backtracking matcher: the greedy `.*` first takes
one more character (any but a newline) and gives it back only when the rest fails. -/
def matchPatternHere : List Char → Option (List Char)
  | [] => matchProfileTail []
  | c :: cs =>
    if c != '\n' then
      match matchPatternHere cs with
      | some r => some r
      | none => matchProfileTail (c :: cs)
    else matchProfileTail (c :: cs)

/-- The leftmost match of the pattern (`FindStringSubmatch`), as its `name` group. -/
def findNameGroup : List Char → Option (List Char)
  | [] => matchPatternHere []
  | c :: cs =>
    match matchPatternHere (c :: cs) with
    | some r => some r
    | none => findNameGroup cs

/-- Source `appendNamespaceToDuplicateSections`. -/
def appendNamespaceToDuplicateSections (pName : String) (ns : String) : String :=
  match findNameGroup pName.data with
  | some name => "profile " ++ ns ++ "." ++ ⟨name⟩
  | none => pName

/-! ## Regeneration -/

/-- The loop of `generateNewRegistrySection` over the sections of the cloned file.  It
stops at the first error of the store. -/
def copySections (env : Collaborators) (currentProfiles : List String) (ns : String) :
    List Section → File → Except StoreError File
  | [], configFile => .ok configFile
  | sec :: rest, configFile =>
    if sec.name = DefaultSection then copySections env currentProfiles ns rest configFile
    else if env.IsLegalProfileName (TrimPrefix sec.name "profile ") then
      if Contains currentProfiles sec.name then
        match NewSection configFile (appendNamespaceToDuplicateSections sec.name ns) with
        | .error e => .error e
        | .ok created =>
          copySections env currentProfiles ns rest
            (assignSection created (appendNamespaceToDuplicateSections sec.name ns)
              (if sec.comment = "" then "# profile name has been prefixed due to duplication"
               else "# profile name has been prefixed due to duplication. \n" ++ sec.comment)
              sec.keys)
      else
        match NewSection configFile sec.name with
        | .error e => .error e
        | .ok created =>
          copySections env currentProfiles ns rest
            (assignSection created sec.name sec.comment sec.keys)
    else copySections env currentProfiles ns rest configFile

/-- Source `generateNewRegistrySection`, from the documents passed in to the target
document it leaves, or the error it returns. -/
def generateNewRegistrySection (env : Collaborators) (configFile clonedFile : File)
    (repoURL : String) (isFirstSection : Bool) : Except StoreError File :=
  match NewSections configFile ("granted_registry_start " ++ repoURL) with
  | .error e => .error e
  | .ok started =>
    let withNotice :=
      if isFirstSection then
        setComment started ("granted_registry_start " ++ repoURL) env.GetAutogeneratedTemplate
      else started
    let currentProfiles := SectionStrings withNotice
    let ns := formatURLToNamespace env repoURL
    match copySections env currentProfiles ns clonedFile withNotice with
    | .error e => .error e
    | .ok copied => NewSections copied ("granted_registry_end " ++ repoURL)

/-! ## Reference functions for the statements -/

/-- The notice put on a section that was copied under a namespaced name. -/
def collisionNotice : String := "# profile name has been prefixed due to duplication"

/-- The test of the copy loop: a section of the cloned file is copied when it is not the
default section and its name, without a leading `profile `, is a legal profile name. -/
def isCopied (env : Collaborators) (sec : Section) : Bool :=
  sec.name != DefaultSection && env.IsLegalProfileName (TrimPrefix sec.name "profile ")

/-- The section created for a copied section `sec`, given the snapshot of names. -/
def copyOf (currentProfiles : List String) (ns : String) (sec : Section) : Section :=
  if Contains currentProfiles sec.name then
    ⟨appendNamespaceToDuplicateSections sec.name ns,
      if sec.comment = "" then "# profile name has been prefixed due to duplication"
      else "# profile name has been prefixed due to duplication. \n" ++ sec.comment,
      sec.keys⟩
  else ⟨sec.name, sec.comment, sec.keys⟩

/-- The sections the copy loop creates, in order. -/
def copiedSections (env : Collaborators) (currentProfiles : List String) (ns : String)
    (clonedFile : File) : List Section :=
  (clonedFile.filter (isCopied env)).map (copyOf currentProfiles ns)

/-- The start marker section as `generateNewRegistrySection` leaves it. -/
def startSection (env : Collaborators) (repoURL : String) (isFirstSection : Bool) : Section :=
  ⟨"granted_registry_start " ++ repoURL,
    if isFirstSection then env.GetAutogeneratedTemplate else "", []⟩

/-- The end marker section as `generateNewRegistrySection` leaves it. -/
def endSection (repoURL : String) : Section :=
  ⟨"granted_registry_end " ++ repoURL, "", []⟩

/-- The sections copied from the cloned file into `configFile` for `repoURL`: the
snapshot of names is taken after the start marker was created. -/
def copiedInto (env : Collaborators) (configFile clonedFile : File) (repoURL : String) :
    List Section :=
  copiedSections env (SectionStrings configFile ++ ["granted_registry_start " ++ repoURL])
    (formatURLToNamespace env repoURL) clonedFile

/-- The block a successful regeneration appends. -/
def generatedBlock (env : Collaborators) (configFile clonedFile : File) (repoURL : String)
    (isFirstSection : Bool) : List Section :=
  startSection env repoURL isFirstSection :: copiedInto env configFile clonedFile repoURL
    ++ [endSection repoURL]

/-- Every name the regeneration creates is new when it is created. -/
def namesFresh (env : Collaborators) (configFile clonedFile : File) (repoURL : String) :
    Prop :=
  (SectionStrings (generatedBlock env configFile clonedFile repoURL false)).Nodup ∧
    ∀ n ∈ SectionStrings (generatedBlock env configFile clonedFile repoURL false),
      n ∉ SectionStrings configFile

/-- An assumption on the validator, which is a parameter here: it accepts no name that
holds a blank. -/
def RejectsBlank (env : Collaborators) : Prop :=
  ∀ n : String, env.IsLegalProfileName n = true → ' ' ∉ n.data

/-! ## Sample data for the instances -/

/-- Collaborators for the instances: the validator accepts the names without a blank,
every URL parses to the repository `repo` with no subpath and no file name. -/
def sampleCollaborators : Collaborators :=
  ⟨fun n => !n.data.contains ' ', fun _ => ⟨"repo", "", ""⟩, "# autogenerated, do not edit"⟩

/-- A user document: the default section and one profile. -/
def sampleTarget : File :=
  [⟨"DEFAULT", "", []⟩, ⟨"profile foo", "# mine", [("region", "eu-west-1")]⟩]

/-- A cloned registry file: a profile that collides with `sampleTarget`, one that does
not, and a section that is no profile. -/
def sampleCloned : File :=
  [⟨"DEFAULT", "", []⟩, ⟨"profile foo", "", [("region", "us-east-1")]⟩,
    ⟨"profile bar", "# shared", [("sso_region", "us-east-1")]⟩,
    ⟨"not a profile", "", [("x", "y")]⟩]

/-- The document `generateNewRegistrySection` leaves for `sampleTarget`, `sampleCloned`
and the URL `github.com/org/repo`. -/
def sampleGenerated : File :=
  [⟨"DEFAULT", "", []⟩, ⟨"profile foo", "# mine", [("region", "eu-west-1")]⟩,
    ⟨"granted_registry_start github.com/org/repo", "# autogenerated, do not edit", []⟩,
    ⟨"profile repo.foo", "# profile name has been prefixed due to duplication",
      [("region", "us-east-1")]⟩,
    ⟨"profile bar", "# shared", [("sso_region", "us-east-1")]⟩,
    ⟨"granted_registry_end github.com/org/repo", "", []⟩]

/-- A document that holds one well-formed block, for the registry
`https://github.com/a/b-extra`. -/
def sampleLongerURLBlock : File :=
  [⟨"granted_registry_start https://github.com/a/b-extra", "", []⟩,
    ⟨"profile x", "", [("region", "us-east-1")]⟩,
    ⟨"granted_registry_end https://github.com/a/b-extra", "", []⟩]

/-- A document whose last section is a start marker with no content and no end marker. -/
def sampleLoneMarker : File :=
  [⟨"DEFAULT", "", []⟩, ⟨"profile mine", "", [("region", "eu-west-1")]⟩,
    ⟨"granted_registry_start https://github.com/a/b", "", []⟩]

/-- The user document `sampleTarget` followed by a stale block of the registry
`github.com/org/repo`. -/
def sampleStale : File :=
  [⟨"DEFAULT", "", []⟩, ⟨"profile foo", "# mine", [("region", "eu-west-1")]⟩,
    ⟨"granted_registry_start github.com/org/repo", "", []⟩,
    ⟨"profile old", "", [("region", "ap-south-1")]⟩,
    ⟨"granted_registry_end github.com/org/repo", "", []⟩]

/-- An empty document: the store keeps the default section only. -/
def sampleEmpty : File := [⟨"DEFAULT", "", []⟩]

/-- A cloned file with the profiles `x` and `y`. -/
def sampleXY : File :=
  [⟨"DEFAULT", "", []⟩, ⟨"profile x", "", [("region", "us-east-1")]⟩,
    ⟨"profile y", "# second", [("region", "us-west-2")]⟩]

/-- A document with two generated blocks between user sections. -/
def sampleTwoBlocks : File :=
  [⟨"DEFAULT", "", []⟩, ⟨"profile mine", "", [("region", "eu-west-1")]⟩,
    ⟨"granted_registry_start repoA", "", []⟩, ⟨"profile a", "", []⟩,
    ⟨"granted_registry_end repoA", "", []⟩,
    ⟨"profile between", "", []⟩,
    ⟨"granted_registry_start repoB", "", []⟩, ⟨"profile b", "", []⟩,
    ⟨"granted_registry_end repoB", "", []⟩,
    ⟨"profile last", "", []⟩]

/-! ## Definitions for the statements on patterns, layouts and the state left -/

/-- No occurrence of the word followed by whitespace: the pattern matches at no
position. -/
def NoProfileWord (s : List Char) : Prop :=
  ∀ a b c, s = a ++ "profile".data ++ c :: b → isRegexSpace c = false

/-- A decision procedure for `NoProfileWord`: the tail of the pattern is tried at every
position. -/
def hasProfileWord : List Char → Bool
  | [] => false
  | c :: cs => (matchProfileTail (c :: cs)).isSome || hasProfileWord cs

/-- Collaborators whose parser returns an empty repository name with a subpath. -/
def sampleNoRepo : Collaborators :=
  ⟨fun n => !n.data.contains ' ', fun _ => ⟨"", "sub", ""⟩, "# autogenerated, do not edit"⟩

/-- Collaborators whose parser returns a repository, no subpath and a file name. -/
def sampleRepoFile : Collaborators :=
  ⟨fun n => !n.data.contains ' ', fun _ => ⟨"repo", "", "granted.yml"⟩,
    "# autogenerated, do not edit"⟩

/-- The components of a parsed URL that are not empty, in the order repository, subpath,
file name. -/
def nonEmptyComponents (u : GitURL) : List String :=
  [u.Repo, u.Subpath, u.Filename].filter (fun c => c != "")

/-- A generated block of a well-formed document: a start marker, the sections between
the markers, an end marker. -/
structure Block where
  startMarker : Section
  body : List Section
  endMarker : Section

/-- The sections of a block in document order. -/
def Block.sections (b : Block) : List Section :=
  b.startMarker :: b.body ++ [b.endMarker]

/-- No section of the list has a name with a marker word in front. -/
def Unmarked (u : List Section) : Prop :=
  ∀ s ∈ u, HasPrefix s.name "granted_registry_start" = false ∧
    HasPrefix s.name "granted_registry_end" = false

/-- A block is well formed: its first section is named as a start marker, its last as an
end marker, and no section between them is named as a marker. -/
def Block.WellFormed (b : Block) : Prop :=
  HasPrefix b.startMarker.name "granted_registry_start" = true ∧ Unmarked b.body ∧
    HasPrefix b.endMarker.name "granted_registry_end" = true

/-- The document `B1 ++ u1 ++ ... ++ Bn ++ un` of a list of blocks, each with the user
sections that follow it. -/
def layoutDocument : List (Block × List Section) → List Section
  | [] => []
  | (b, u) :: rest => b.sections ++ u ++ layoutDocument rest

/-- The sections `B1 ++ ... ++ Bn` of the blocks alone. -/
def layoutBlocks : List (Block × List Section) → List Section
  | [] => []
  | (b, _) :: rest => b.sections ++ layoutBlocks rest

/-- A document with a stray end marker between two user sections. -/
def sampleStrayEnd : File :=
  [⟨"a", "", []⟩, ⟨"granted_registry_end X", "", []⟩, ⟨"b", "", []⟩]

/-- A document with a start marker that is never closed. -/
def sampleUnclosed : File :=
  [⟨"DEFAULT", "", []⟩, ⟨"profile mine", "", []⟩,
    ⟨"granted_registry_start https://github.com/a/b", "", []⟩,
    ⟨"profile x", "", []⟩, ⟨"profile y", "", []⟩]

/-- A well-formed layout: one block for `repoA` followed by a user section, one block for
`repoB`. -/
def sampleLayout : List (Block × List Section) :=
  [(⟨⟨"granted_registry_start repoA", "", []⟩, [⟨"profile a", "", []⟩],
      ⟨"granted_registry_end repoA", "", []⟩⟩, [⟨"profile between", "", []⟩]),
    (⟨⟨"granted_registry_start repoB", "", []⟩, [⟨"profile b", "", []⟩],
      ⟨"granted_registry_end repoB", "", []⟩⟩, [⟨"profile last", "", []⟩])]

instance (u : List Section) : Decidable (Unmarked u) :=
  inferInstanceAs (Decidable (∀ s ∈ u, HasPrefix s.name "granted_registry_start" = false ∧
    HasPrefix s.name "granted_registry_end" = false))

instance (b : Block) : Decidable b.WellFormed :=
  inferInstanceAs (Decidable (HasPrefix b.startMarker.name "granted_registry_start" = true ∧
    Unmarked b.body ∧ HasPrefix b.endMarker.name "granted_registry_end" = true))

/-- The loop of `generateNewRegistrySection` over the sections of the cloned file, with
the target document as it stands in memory when the loop ends or returns the error. -/
def copySectionsLive (env : Collaborators) (currentProfiles : List String) (ns : String) :
    List Section → File → File × Option StoreError
  | [], configFile => (configFile, none)
  | sec :: rest, configFile =>
    if sec.name = DefaultSection then copySectionsLive env currentProfiles ns rest configFile
    else if env.IsLegalProfileName (TrimPrefix sec.name "profile ") then
      if Contains currentProfiles sec.name then
        match NewSection configFile (appendNamespaceToDuplicateSections sec.name ns) with
        | .error e => (configFile, some e)
        | .ok created =>
          copySectionsLive env currentProfiles ns rest
            (assignSection created (appendNamespaceToDuplicateSections sec.name ns)
              (if sec.comment = "" then "# profile name has been prefixed due to duplication"
               else "# profile name has been prefixed due to duplication. \n" ++ sec.comment)
              sec.keys)
      else
        match NewSection configFile sec.name with
        | .error e => (configFile, some e)
        | .ok created =>
          copySectionsLive env currentProfiles ns rest
            (assignSection created sec.name sec.comment sec.keys)
    else copySectionsLive env currentProfiles ns rest configFile

/-- Source `generateNewRegistrySection` as a function to the state it leaves: the target
document in memory at the return, and the error returned, if any.  The source changes
`configFile` in place, so that on an error the sections created before it are in the
document and no later one is. -/
def generateNewRegistrySectionLive (env : Collaborators) (configFile clonedFile : File)
    (repoURL : String) (isFirstSection : Bool) : File × Option StoreError :=
  match NewSections configFile ("granted_registry_start " ++ repoURL) with
  | .error e => (configFile, some e)
  | .ok started =>
    let withNotice :=
      if isFirstSection then
        setComment started ("granted_registry_start " ++ repoURL) env.GetAutogeneratedTemplate
      else started
    let currentProfiles := SectionStrings withNotice
    let ns := formatURLToNamespace env repoURL
    match copySectionsLive env currentProfiles ns clonedFile withNotice with
    | (stopped, some e) => (stopped, some e)
    | (copied, none) =>
      match NewSections copied ("granted_registry_end " ++ repoURL) with
      | .error e => (copied, some e)
      | .ok ended => (ended, none)

/-- Reference function: the sections of a list created one after the other at the end of
a document, up to the first whose name the document already has. -/
def createAll : File → List Section → File × Option StoreError
  | f, [] => (f, none)
  | f, s :: rest =>
    if s.name ∈ SectionStrings f then (f, some (.duplicateSection s.name))
    else createAll (f ++ [s]) rest

/-- The value `generateNewRegistrySection` returns for a state left. -/
def returned : File × Option StoreError → Except StoreError File
  | (f, none) => .ok f
  | (_, some e) => .error e

/-- A credentials-style target with the section `foo`. -/
def sampleCredentials : File :=
  [⟨"DEFAULT", "", []⟩, ⟨"foo", "", [("aws_access_key_id", "AKIA")]⟩]

/-- A cloned credentials-style file with the section `foo`. -/
def sampleClonedCredentials : File :=
  [⟨"DEFAULT", "", []⟩, ⟨"foo", "", [("aws_access_key_id", "AKIB")]⟩]

/-- A cloned file whose colliding profile has a comment of its own. -/
def sampleClonedCommented : File :=
  [⟨"DEFAULT", "", []⟩, ⟨"profile foo", "# shared", [("region", "us-east-1")]⟩,
    ⟨"profile bar", "# other", [("region", "us-west-2")]⟩]

/-- The document `generateNewRegistrySection` leaves for `sampleTarget`,
`sampleClonedCommented` and the URL `github.com/org/repo`, not as first block. -/
def sampleGeneratedCommented : File :=
  [⟨"DEFAULT", "", []⟩, ⟨"profile foo", "# mine", [("region", "eu-west-1")]⟩,
    ⟨"granted_registry_start github.com/org/repo", "", []⟩,
    ⟨"profile repo.foo", "# profile name has been prefixed due to duplication. \n# shared",
      [("region", "us-east-1")]⟩,
    ⟨"profile bar", "# other", [("region", "us-west-2")]⟩,
    ⟨"granted_registry_end github.com/org/repo", "", []⟩]

/-! ## Lemmas on the store and the copy loop -/



theorem Contains_iff (arr : List String) (s : String) : Contains arr s = true ↔ s ∈ arr := by
  induction arr with
  | nil => simp [Contains]
  | cons v arr ih =>
    by_cases h : v = s
    · simp [Contains, h]
    · have h2 : ¬ s = v := fun e => h e.symm
      simp [Contains, h, h2, ih]

theorem SectionStrings_append (f g : File) :
    SectionStrings (f ++ g) = SectionStrings f ++ SectionStrings g := by
  simp [SectionStrings]

theorem assignSection_fresh (f : File) (name c : String) (k : List (String × String))
    (h : name ∉ SectionStrings f) :
    assignSection (f ++ [⟨name, "", []⟩]) name c k = f ++ [⟨name, c, k⟩] := by
  unfold assignSection
  rw [List.map_append]
  congr 1
  · conv_rhs => rw [← List.map_id f]
    apply List.map_congr_left
    intro s hs
    have : s.name ≠ name := by
      intro e
      exact h (by rw [← e]; exact List.mem_map_of_mem _ hs)
    simp [this]
  · simp

theorem setComment_fresh (f : File) (name c : String) (h : name ∉ SectionStrings f) :
    setComment (f ++ [⟨name, "", []⟩]) name c = f ++ [⟨name, c, []⟩] := by
  unfold setComment
  rw [List.map_append]
  congr 1
  · conv_rhs => rw [← List.map_id f]
    apply List.map_congr_left
    intro s hs
    have : s.name ≠ name := by
      intro e
      exact h (by rw [← e]; exact List.mem_map_of_mem _ hs)
    simp [this]
  · simp

theorem copySections_cons_skip (env : Collaborators) (cur : List String) (ns : String)
    (sec : Section) (rest : List Section) (cfg : File) (h : isCopied env sec = false) :
    copySections env cur ns (sec :: rest) cfg = copySections env cur ns rest cfg := by
  rw [copySections]
  by_cases hd : sec.name = DefaultSection
  · rw [if_pos hd]
  · rw [if_neg hd]
    have hl : ¬ env.IsLegalProfileName (TrimPrefix sec.name "profile ") = true := by
      intro hl; simp [isCopied, hd, hl] at h
    rw [if_neg hl]

theorem copySections_cons_copied (env : Collaborators) (cur : List String) (ns : String)
    (sec : Section) (rest : List Section) (cfg : File) (h : isCopied env sec = true) :
    copySections env cur ns (sec :: rest) cfg =
      match NewSection cfg (copyOf cur ns sec).name with
      | .error e => .error e
      | .ok created =>
        copySections env cur ns rest
          (assignSection created (copyOf cur ns sec).name (copyOf cur ns sec).comment
            (copyOf cur ns sec).keys) := by
  have hd : ¬ sec.name = DefaultSection := by
    intro hd; simp [isCopied, hd] at h
  have hl : env.IsLegalProfileName (TrimPrefix sec.name "profile ") = true := by
    simpa [isCopied, hd] using h
  rw [copySections, if_neg hd, if_pos hl]
  by_cases hcol : Contains cur sec.name = true
  · simp only [hcol, if_true, copyOf]
  · simp only [hcol, copyOf]
    rfl

theorem copiedSections_cons_skip (env : Collaborators) (cur : List String) (ns : String)
    (sec : Section) (rest : List Section) (h : isCopied env sec = false) :
    copiedSections env cur ns (sec :: rest) = copiedSections env cur ns rest := by
  simp [copiedSections, h]

theorem copiedSections_cons_copied (env : Collaborators) (cur : List String) (ns : String)
    (sec : Section) (rest : List Section) (h : isCopied env sec = true) :
    copiedSections env cur ns (sec :: rest) =
      copyOf cur ns sec :: copiedSections env cur ns rest := by
  simp [copiedSections, h]

/-- The copy loop succeeds exactly when every name it creates is new at the moment of
its creation, and then it has appended the copied sections. -/
theorem copySections_ok_iff (env : Collaborators) (cur : List String) (ns : String)
    (cloned : File) (cfg D : File) :
    copySections env cur ns cloned cfg = .ok D ↔
      ((SectionStrings (copiedSections env cur ns cloned)).Nodup ∧
        (∀ n ∈ SectionStrings (copiedSections env cur ns cloned), n ∉ SectionStrings cfg)) ∧
      D = cfg ++ copiedSections env cur ns cloned := by
  induction cloned generalizing cfg with
  | nil => simp [copySections, copiedSections, SectionStrings, eq_comm]
  | cons sec rest ih =>
    by_cases hc : isCopied env sec = true
    · rw [copySections_cons_copied _ _ _ _ _ _ hc, copiedSections_cons_copied _ _ _ _ _ hc]
      by_cases hin : (copyOf cur ns sec).name ∈ SectionStrings cfg
      · simp only [NewSection, hin, if_true]
        constructor
        · intro h; cases h
        · intro h
          exact absurd hin (h.1.2 _ (by simp [SectionStrings]))
      · simp only [NewSection, hin, if_false]
        rw [assignSection_fresh _ _ _ _ hin, ih]
        simp only [SectionStrings, List.map_cons, List.nodup_cons, List.mem_cons,
          List.map_append, List.mem_append, List.append_assoc,
          List.singleton_append, forall_eq_or_imp, List.map_nil, List.mem_singleton, List.not_mem_nil, or_false]
        constructor
        · rintro ⟨⟨h1, h2⟩, h3⟩
          refine ⟨⟨⟨?_, h1⟩, hin, ?_⟩, h3⟩
          · intro hmem
            exact (h2 _ hmem) (Or.inr rfl)
          · intro n hn hc
            exact (h2 n hn) (Or.inl hc)
        · rintro ⟨⟨⟨h1, h2⟩, _, h4⟩, h5⟩
          refine ⟨⟨h2, ?_⟩, h5⟩
          intro n hn hc
          rcases hc with hc | hc
          · exact h4 n hn hc
          · exact h1 (hc ▸ hn)
    · have hc2 : isCopied env sec = false := by simpa using hc
      rw [copySections_cons_skip _ _ _ _ _ _ hc2, copiedSections_cons_skip _ _ _ _ _ hc2]
      exact ih cfg

theorem startMarker_data (id : String) :
    ("granted_registry_start " ++ id).data =
      'g' :: 'r' :: 'a' :: 'n' :: 't' :: 'e' :: 'd' :: '_' :: 'r' :: 'e' :: 'g' :: 'i' :: 's' ::
      't' :: 'r' :: 'y' :: '_' :: 's' :: 't' :: 'a' :: 'r' :: 't' :: ' ' :: id.data := by
  rw [String.data_append]; rfl

theorem endMarker_data (id : String) :
    ("granted_registry_end " ++ id).data =
      'g' :: 'r' :: 'a' :: 'n' :: 't' :: 'e' :: 'd' :: '_' :: 'r' :: 'e' :: 'g' :: 'i' :: 's' ::
      't' :: 'r' :: 'y' :: '_' :: 'e' :: 'n' :: 'd' :: ' ' :: id.data := by
  rw [String.data_append]; rfl

theorem endMarker_ne_startMarker (id : String) :
    "granted_registry_end " ++ id ≠ "granted_registry_start " ++ id := by
  intro h
  have h2 := congrArg String.data h
  rw [startMarker_data, endMarker_data] at h2
  simp at h2

theorem SectionStrings_generatedBlock (env : Collaborators) (cfg cloned : File)
    (id : String) (first : Bool) :
    SectionStrings (generatedBlock env cfg cloned id first) =
      ("granted_registry_start " ++ id) :: SectionStrings (copiedInto env cfg cloned id)
        ++ ["granted_registry_end " ++ id] := by
  simp [generatedBlock, SectionStrings, startSection, endSection]

/-- The regeneration succeeds exactly when every name it creates is new at the moment of
its creation; it then leaves the target followed by the generated block. -/
theorem generateNewRegistrySection_ok_iff (env : Collaborators) (cfg cloned : File)
    (id : String) (first : Bool) (D : File) :
    generateNewRegistrySection env cfg cloned id first = .ok D ↔
      namesFresh env cfg cloned id ∧ D = cfg ++ generatedBlock env cfg cloned id first := by
  unfold generateNewRegistrySection namesFresh
  rw [SectionStrings_generatedBlock]
  by_cases hs : "granted_registry_start " ++ id ∈ SectionStrings cfg
  · simp only [NewSections, NewSection, hs, if_true]
    constructor
    · intro h; cases h
    · intro h; exact absurd hs (h.1.2 _ (by simp))
  · simp only [NewSections, NewSection, hs, if_false]
    have hw : (if first = true then
          setComment (cfg ++ [⟨"granted_registry_start " ++ id, "", []⟩])
            ("granted_registry_start " ++ id) env.GetAutogeneratedTemplate
        else cfg ++ [⟨"granted_registry_start " ++ id, "", []⟩]) =
        cfg ++ [startSection env id first] := by
      cases first
      · simp [startSection]
      · simp [startSection, setComment_fresh _ _ _ hs]
    rw [hw]
    have hn : SectionStrings (cfg ++ [startSection env id first]) =
        SectionStrings cfg ++ ["granted_registry_start " ++ id] := by
      simp [SectionStrings, startSection]
    rw [hn]
    cases hcopy : copySections env (SectionStrings cfg ++ ["granted_registry_start " ++ id])
        (formatURLToNamespace env id) cloned (cfg ++ [startSection env id first]) with
    | error e =>
      simp only
      constructor
      · intro h; cases h
      · rintro ⟨⟨hnd, hfr⟩, -⟩
        have : copySections env (SectionStrings cfg ++ ["granted_registry_start " ++ id])
            (formatURLToNamespace env id) cloned (cfg ++ [startSection env id first]) =
            .ok (cfg ++ [startSection env id first] ++ copiedInto env cfg cloned id) := by
          rw [copySections_ok_iff]
          refine ⟨⟨?_, ?_⟩, rfl⟩
          · have := hnd
            simp only [List.cons_append, List.nodup_cons] at this
            exact (List.nodup_append.1 this.2).1
          · intro n hmem
            rw [hn]
            simp only [List.mem_append, List.mem_singleton, not_or]
            have hmem2 : n ∈ SectionStrings (copiedInto env cfg cloned id) := hmem
            refine ⟨hfr n (by simp [hmem2]), ?_⟩
            intro e
            subst e
            simp only [List.cons_append, List.nodup_cons, List.mem_append] at hnd
            exact hnd.1 (Or.inl hmem2)
        rw [this] at hcopy
        cases hcopy
    | ok copied =>
      rw [copySections_ok_iff] at hcopy
      obtain ⟨⟨hnd, hfr⟩, rfl⟩ := hcopy
      simp only
      rw [hn] at hfr
      have hcm : ∀ n ∈ SectionStrings (copiedInto env cfg cloned id),
          n ∉ SectionStrings cfg ∧ n ≠ "granted_registry_start " ++ id := by
        intro n hn2
        have := hfr n hn2
        simpa [not_or] using this
      by_cases he : "granted_registry_end " ++ id ∈
          SectionStrings (cfg ++ [startSection env id first] ++
            copiedSections env (SectionStrings cfg ++ ["granted_registry_start " ++ id])
              (formatURLToNamespace env id) cloned)
      · rw [if_pos he]
        constructor
        · intro h; cases h
        · rintro ⟨⟨hnd2, hfr2⟩, -⟩
          exfalso
          simp only [SectionStrings_append, List.mem_append] at he
          rcases he with (he | he) | he
          · exact hfr2 _ (by simp) he
          · simp [SectionStrings, startSection] at he
            exact endMarker_ne_startMarker id he
          · simp only [List.cons_append, List.nodup_cons] at hnd2
            have := (List.nodup_append.1 hnd2.2).2.2
            exact this he (by simp)
      · rw [if_neg he]
        simp only [SectionStrings_append, List.mem_append, not_or] at he
        constructor
        · intro h
          cases h
          refine ⟨⟨?_, ?_⟩, by simp [generatedBlock, endSection, copiedInto]⟩
          · simp only [List.cons_append, List.nodup_cons, List.mem_append, not_or,
              List.mem_singleton]
            refine ⟨⟨fun h => (hcm _ h).2 rfl, fun h => endMarker_ne_startMarker id h.symm⟩, ?_⟩
            rw [List.nodup_append]
            refine ⟨hnd, by simp, ?_⟩
            intro a ha hb
            simp only [List.mem_singleton] at hb
            subst hb
            exact he.2 ha
          · intro n hn2
            simp only [List.cons_append, List.mem_cons, List.mem_append,
              List.mem_singleton, List.not_mem_nil, or_false] at hn2
            rcases hn2 with rfl | hn2 | rfl
            · exact hs
            · exact (hcm n hn2).1
            · exact he.1.1
        · rintro ⟨-, rfl⟩
          simp [generatedBlock, endSection, copiedInto]

/-! ## Lemmas on names -/

theorem HasPrefix_iff (s p : String) : HasPrefix s p = true ↔ p.data <+: s.data := by
  simp [HasPrefix]

theorem HasPrefix_self (s : String) : HasPrefix s s = true := by
  rw [HasPrefix_iff]

theorem profileWord_data (t : String) :
    ("profile " ++ t).data = 'p' :: 'r' :: 'o' :: 'f' :: 'i' :: 'l' :: 'e' :: ' ' :: t.data := by
  rw [String.data_append]; rfl

/-- A name that begins with a start marker holds a blank and does not begin with
`profile `. -/
theorem startMarked_name (n id : String)
    (h : HasPrefix n ("granted_registry_start " ++ id) = true) :
    ' ' ∈ n.data ∧ HasPrefix n "profile " = false ∧ n ≠ DefaultSection := by
  rw [HasPrefix_iff, startMarker_data] at h
  obtain ⟨t, ht⟩ := h
  refine ⟨by rw [← ht]; simp, ?_, ?_⟩
  · have : HasPrefix n ("profile " ++ "") = false := by
      rw [Bool.eq_false_iff, Ne, HasPrefix_iff, profileWord_data, ← ht]
      rintro ⟨u, hu⟩
      simp at hu
    simpa using this
  · intro e
    rw [e] at ht
    have : DefaultSection.data = ['D', 'E', 'F', 'A', 'U', 'L', 'T'] := rfl
    rw [this] at ht
    simp at ht

/-- A name that begins with an end marker holds a blank and does not begin with
`profile `. -/
theorem endMarked_name (n id : String)
    (h : HasPrefix n ("granted_registry_end " ++ id) = true) :
    ' ' ∈ n.data ∧ HasPrefix n "profile " = false ∧ n ≠ DefaultSection := by
  rw [HasPrefix_iff, endMarker_data] at h
  obtain ⟨t, ht⟩ := h
  refine ⟨by rw [← ht]; simp, ?_, ?_⟩
  · have : HasPrefix n ("profile " ++ "") = false := by
      rw [Bool.eq_false_iff, Ne, HasPrefix_iff, profileWord_data, ← ht]
      rintro ⟨u, hu⟩
      simp at hu
    simpa using this
  · intro e
    rw [e] at ht
    have : DefaultSection.data = ['D', 'E', 'F', 'A', 'U', 'L', 'T'] := rfl
    rw [this] at ht
    simp at ht

theorem profileWord_not_startMarked (t id : String) :
    HasPrefix ("profile " ++ t) ("granted_registry_start " ++ id) = false := by
  rw [Bool.eq_false_iff, Ne, HasPrefix_iff, profileWord_data, startMarker_data]
  rintro ⟨u, hu⟩
  simp at hu

theorem profileWord_not_endMarked (t id : String) :
    HasPrefix ("profile " ++ t) ("granted_registry_end " ++ id) = false := by
  rw [Bool.eq_false_iff, Ne, HasPrefix_iff, profileWord_data, endMarker_data]
  rintro ⟨u, hu⟩
  simp at hu

theorem profileWord_ne_default (t : String) : "profile " ++ t ≠ DefaultSection := by
  intro e
  have h := congrArg String.data e
  rw [profileWord_data] at h
  have : DefaultSection.data = ['D', 'E', 'F', 'A', 'U', 'L', 'T'] := rfl
  rw [this] at h
  simp at h

theorem endMarker_not_startMarked (id id2 : String) :
    HasPrefix ("granted_registry_end " ++ id) ("granted_registry_start " ++ id2) = false := by
  rw [Bool.eq_false_iff, Ne, HasPrefix_iff, endMarker_data, startMarker_data]
  rintro ⟨u, hu⟩
  simp at hu

/-- The renaming either leaves the name as it is or yields a name that begins with
`profile `. -/
theorem appendNamespace_cases (pName ns : String) :
    appendNamespaceToDuplicateSections pName ns = pName ∨
      ∃ t, appendNamespaceToDuplicateSections pName ns = "profile " ++ t := by
  unfold appendNamespaceToDuplicateSections
  cases findNameGroup pName.data with
  | none => exact Or.inl rfl
  | some name => exact Or.inr ⟨ns ++ "." ++ ⟨name⟩, by simp [String.append_assoc]⟩

theorem TrimPrefix_of_not (s p : String) (h : HasPrefix s p = false) : TrimPrefix s p = s := by
  simp [TrimPrefix, h]

/-- Under `RejectsBlank` no copied section carries a marker name of any registry, and
none is named as the default section. -/
theorem copyOf_unmarked (env : Collaborators) (hb : RejectsBlank env) (cur : List String)
    (ns : String) (sec : Section) (hc : isCopied env sec = true) (id : String) :
    HasPrefix (copyOf cur ns sec).name ("granted_registry_start " ++ id) = false ∧
    HasPrefix (copyOf cur ns sec).name ("granted_registry_end " ++ id) = false ∧
    (copyOf cur ns sec).name ≠ DefaultSection := by
  have hd : sec.name ≠ DefaultSection := by
    intro hd; simp [isCopied, hd] at hc
  have hl : env.IsLegalProfileName (TrimPrefix sec.name "profile ") = true := by
    simpa [isCopied, hd] using hc
  have hsame : HasPrefix sec.name ("granted_registry_start " ++ id) = false ∧
      HasPrefix sec.name ("granted_registry_end " ++ id) = false := by
    constructor
    · rw [Bool.eq_false_iff]
      intro h
      obtain ⟨h1, h2, -⟩ := startMarked_name _ _ h
      rw [TrimPrefix_of_not _ _ h2] at hl
      exact hb _ hl h1
    · rw [Bool.eq_false_iff]
      intro h
      obtain ⟨h1, h2, -⟩ := endMarked_name _ _ h
      rw [TrimPrefix_of_not _ _ h2] at hl
      exact hb _ hl h1
  have hname : (copyOf cur ns sec).name = sec.name ∨ ∃ t, (copyOf cur ns sec).name = "profile " ++ t := by
    unfold copyOf
    split
    · exact appendNamespace_cases _ _
    · exact Or.inl rfl
  rcases hname with h | ⟨t, h⟩
  · rw [h]; exact ⟨hsame.1, hsame.2, hd⟩
  · rw [h]
    exact ⟨profileWord_not_startMarked _ _, profileWord_not_endMarked _ _, profileWord_ne_default _⟩

/-! ## Lemmas on the scanners and the deletion loop -/

theorem scanSections_skip_unmarked (sM eM : String) (pre rest : List Section)
    (h : ∀ s ∈ pre, s.name ≠ DefaultSection →
      HasPrefix s.name sM = false ∧ HasPrefix s.name eM = false) :
    scanSections sM eM false (pre ++ rest) = scanSections sM eM false rest := by
  induction pre with
  | nil => rfl
  | cons a pre ih =>
    have ih2 := ih (fun s hs => h s (List.mem_cons_of_mem _ hs))
    rw [List.cons_append, scanSections]
    by_cases hd : a.name = DefaultSection
    · rw [if_pos hd, ih2]
    · obtain ⟨h1, h2⟩ := h a (List.mem_cons_self _ _) hd
      simp [hd, h1, h2, ih2]

theorem scanSections_inside (sM eM : String) (mid rest : List Section)
    (h : ∀ s ∈ mid, s.name ≠ DefaultSection ∧ HasPrefix s.name eM = false) :
    scanSections sM eM true (mid ++ rest) = mid ++ scanSections sM eM true rest := by
  induction mid with
  | nil => rfl
  | cons a mid ih =>
    have ih2 := ih (fun s hs => h s (List.mem_cons_of_mem _ hs))
    obtain ⟨h1, h2⟩ := h a (List.mem_cons_self _ _)
    rw [List.cons_append, scanSections]
    simp [h1, h2, ih2]

theorem mem_scanSections (sM eM : String) (l : List Section) (b : Bool) (s : Section)
    (hs : s ∈ l) (hd : s.name ≠ DefaultSection)
    (hm : HasPrefix s.name sM = true ∨ HasPrefix s.name eM = true) :
    s ∈ scanSections sM eM b l := by
  induction l generalizing b with
  | nil => cases hs
  | cons a l ih =>
    rw [scanSections]
    rcases List.mem_cons.1 hs with rfl | hs2
    · rw [if_neg hd]
      cases b
      · rcases hm with hm | hm
        · simp [hm]
        · by_cases h1 : HasPrefix s.name sM = true
          · simp [h1]
          · simp [h1, hm]
      · rcases hm with hm | hm
        · by_cases h2 : HasPrefix s.name eM = true
          · simp [h2]
          · simp [h2]
        · simp [hm]
    · have := fun b => ih b hs2
      split
      · exact this _
      · split
        · exact List.mem_cons_of_mem _ (this _)
        · split
          · exact List.mem_cons_of_mem _ (this _)
          · split
            · exact List.mem_cons_of_mem _ (this _)
            · exact this _

theorem scanSections_sublist (sM eM : String) (b : Bool) (l : List Section) :
    (scanSections sM eM b l).Sublist l := by
  induction l generalizing b with
  | nil => exact List.Sublist.slnil
  | cons a l ih =>
    rw [scanSections]
    split
    · exact (ih _).cons _
    · split
      · exact (ih _).cons₂ _
      · split
        · exact (ih _).cons₂ _
        · split
          · exact (ih _).cons₂ _
          · exact (ih _).cons _

theorem scanSections_not_default (sM eM : String) (b : Bool) (l : List Section) :
    ∀ s ∈ scanSections sM eM b l, s.name ≠ DefaultSection := by
  induction l generalizing b with
  | nil => intro s hs; cases hs
  | cons a l ih =>
    rw [scanSections]
    split
    · exact ih _
    · rename_i hd
      have hcons : ∀ b2, ∀ s ∈ a :: scanSections sM eM b2 l, s.name ≠ DefaultSection := by
        intro b2 s hs
        rcases List.mem_cons.1 hs with rfl | hs
        · exact hd
        · exact ih _ s hs
      split
      · exact hcons _
      · split
        · exact hcons _
        · split
          · exact hcons _
          · exact ih _

theorem deleteSections_eq_filter (f : File) (ps : List Section) :
    deleteSections f ps = f.filter (fun s => decide (s.name ∉ SectionStrings ps)) := by
  unfold deleteSections
  induction ps generalizing f with
  | nil => simp [SectionStrings]
  | cons p ps ih =>
    rw [List.foldl_cons, ih, DeleteSection, List.filter_filter]
    apply List.filter_congr
    intro s _
    simp only [SectionStrings, List.map_cons, List.mem_cons, not_or, Bool.decide_and,
      decide_not, bne, Bool.and_comm]
    by_cases h : s.name = p.name <;> simp [h]

/-! ## Lemmas on regeneration followed by a scan or a removal -/

theorem sample_rejectsBlank : RejectsBlank sampleCollaborators := by
  intro n h
  simpa [sampleCollaborators] using h

theorem sample_generate :
    generateNewRegistrySection sampleCollaborators sampleTarget sampleCloned
      "github.com/org/repo" true = .ok sampleGenerated := by
  rfl

/-- The filtered scan of a document that ends in a generated block, after sections with
no marker of that registry, is the block. -/
theorem scan_generatedBlock (env : Collaborators) (hb : RejectsBlank env)
    (pre cfg cloned : File) (id : String) (first : Bool)
    (hpre : ∀ s ∈ pre, s.name ≠ DefaultSection →
      HasPrefix s.name ("granted_registry_start " ++ id) = false ∧
        HasPrefix s.name ("granted_registry_end " ++ id) = false) :
    getGeneratedSectionByRegistryURL (pre ++ generatedBlock env cfg cloned id first) id =
      generatedBlock env cfg cloned id first := by
  unfold getGeneratedSectionByRegistryURL
  rw [scanSections_skip_unmarked _ _ _ _ hpre]
  unfold generatedBlock
  have hs := startMarked_name _ id (HasPrefix_self ("granted_registry_start " ++ id))
  have he := endMarked_name _ id (HasPrefix_self ("granted_registry_end " ++ id))
  rw [List.cons_append, scanSections]
  simp only [startSection, hs.2.2, if_false, HasPrefix_self, Bool.not_false, Bool.and_self,
    if_true]
  congr 1
  rw [scanSections_inside]
  · congr 1
    rw [scanSections]
    simp [endSection, he.2.2, HasPrefix_self, scanSections]
  · intro s hs2
    simp only [copiedInto, copiedSections, List.mem_map, List.mem_filter] at hs2
    obtain ⟨sec, ⟨-, hc⟩, rfl⟩ := hs2
    have := copyOf_unmarked env hb (SectionStrings cfg ++ ["granted_registry_start " ++ id])
      (formatURLToNamespace env id) sec hc id
    exact ⟨this.2.2, this.2.1⟩

/-- What `RemoveAutogeneratedProfileByRegistryURL` leaves holds no marker of the
registry. -/
theorem remove_by_url_unmarked (cFile : File) (repoURL : String) :
    ∀ s ∈ RemoveAutogeneratedProfileByRegistryURL cFile repoURL, s.name ≠ DefaultSection →
      HasPrefix s.name ("granted_registry_start " ++ repoURL) = false ∧
        HasPrefix s.name ("granted_registry_end " ++ repoURL) = false := by
  intro s hs hd
  unfold RemoveAutogeneratedProfileByRegistryURL at hs
  rw [deleteSections_eq_filter, List.mem_filter] at hs
  obtain ⟨hmem, hnot⟩ := hs
  have hnot2 : s.name ∉ SectionStrings (getGeneratedSectionByRegistryURL cFile repoURL) := by
    simpa using hnot
  have key : ¬ (HasPrefix s.name ("granted_registry_start " ++ repoURL) = true ∨
      HasPrefix s.name ("granted_registry_end " ++ repoURL) = true) := by
    intro hm
    exact hnot2 (List.mem_map_of_mem _ (mem_scanSections _ _ cFile false s hmem hd hm))
  rw [not_or] at key
  exact ⟨by simpa using key.1, by simpa using key.2⟩

theorem scan_after_remove_by_url (cFile : File) (repoURL : String) :
    getGeneratedSectionByRegistryURL
      (RemoveAutogeneratedProfileByRegistryURL cFile repoURL) repoURL = [] := by
  unfold getGeneratedSectionByRegistryURL
  have := scanSections_skip_unmarked ("granted_registry_start " ++ repoURL)
    ("granted_registry_end " ++ repoURL)
    (RemoveAutogeneratedProfileByRegistryURL cFile repoURL) []
    (remove_by_url_unmarked cFile repoURL)
  rw [List.append_nil] at this
  rw [this]; rfl

/-- Removing by URL takes a generated block off the end of a document that holds no
other marker of the registry. -/
theorem remove_generatedBlock (env : Collaborators) (hb : RejectsBlank env)
    (cfg cloned : File) (id : String) (first : Bool)
    (hpre : ∀ s ∈ cfg, s.name ≠ DefaultSection →
      HasPrefix s.name ("granted_registry_start " ++ id) = false ∧
        HasPrefix s.name ("granted_registry_end " ++ id) = false)
    (hfresh : namesFresh env cfg cloned id) :
    RemoveAutogeneratedProfileByRegistryURL (cfg ++ generatedBlock env cfg cloned id first) id
      = cfg := by
  unfold RemoveAutogeneratedProfileByRegistryURL
  rw [scan_generatedBlock env hb cfg cfg cloned id first hpre, deleteSections_eq_filter,
    List.filter_append]
  have hnames : SectionStrings (generatedBlock env cfg cloned id first) =
      SectionStrings (generatedBlock env cfg cloned id false) := by
    rw [SectionStrings_generatedBlock, SectionStrings_generatedBlock]
  have h1 : cfg.filter (fun s => decide
      (s.name ∉ SectionStrings (generatedBlock env cfg cloned id first))) = cfg := by
    rw [List.filter_eq_self]
    intro a ha
    simp only [decide_eq_true_eq]
    intro hin
    rw [hnames] at hin
    exact hfresh.2 _ hin (List.mem_map_of_mem _ ha)
  have h2 : (generatedBlock env cfg cloned id first).filter (fun s => decide
      (s.name ∉ SectionStrings (generatedBlock env cfg cloned id first))) = [] := by
    rw [List.filter_eq_nil_iff]
    intro a ha
    simp only [decide_eq_true_eq, not_not]
    exact List.mem_map_of_mem _ ha
  rw [h1, h2, List.append_nil]

theorem collisionComment_eq (c : String) :
    "# profile name has been prefixed due to duplication. \n" ++ c =
      collisionNotice ++ ". \n" ++ c := by
  have : "# profile name has been prefixed due to duplication. \n" =
      collisionNotice ++ ". \n" := by decide
  rw [this]

/-- Under `RejectsBlank` a section the copy test accepts carries no marker name. -/
theorem legal_unmarked (env : Collaborators) (hb : RejectsBlank env) (n id : String)
    (hl : env.IsLegalProfileName (TrimPrefix n "profile ") = true) :
    HasPrefix n ("granted_registry_start " ++ id) = false ∧
      HasPrefix n ("granted_registry_end " ++ id) = false := by
  constructor
  · rw [Bool.eq_false_iff]
    intro h
    obtain ⟨h1, h2, -⟩ := startMarked_name _ _ h
    rw [TrimPrefix_of_not _ _ h2] at hl
    exact hb _ hl h1
  · rw [Bool.eq_false_iff]
    intro h
    obtain ⟨h1, h2, -⟩ := endMarked_name _ _ h
    rw [TrimPrefix_of_not _ _ h2] at hl
    exact hb _ hl h1

/-! ## Lemmas on `getNonGrantedProfiles` -/

theorem default_unmarked :
    HasPrefix DefaultSection "granted_registry_start" = false ∧
      HasPrefix DefaultSection "granted_registry_end" = false := by
  decide

/-- The names collected by the first loop of `getNonGrantedProfiles` are, the default
name aside, the names of the sections the scan without filter returns. -/
theorem mem_grantedProfileNames (b : Bool) (l : List Section) (n : String)
    (hn : n ≠ DefaultSection) :
    n ∈ grantedProfileNames b l ↔
      n ∈ SectionStrings (scanSections "granted_registry_start" "granted_registry_end" b l) := by
  induction l generalizing b with
  | nil => simp [grantedProfileNames, scanSections, SectionStrings]
  | cons a l ih =>
    rw [grantedProfileNames, scanSections]
    by_cases hd : a.name = DefaultSection
    · have hne : ¬ n = a.name := fun e => hn (e.trans hd)
      rw [if_pos hd, hd, default_unmarked.1, default_unmarked.2]
      cases b
      · simpa using ih false
      · simpa [hne, ← hd] using ih true
    · rw [if_neg hd]
      split
      · simp [SectionStrings, ih true]
      · split
        · simp [SectionStrings, ih false]
        · split
          · simp [SectionStrings, ih b]
          · exact ih b

theorem keepNonGranted_eq_filter (g : List String) (l : List Section) :
    keepNonGranted g l =
      l.filter (fun s => s.name != DefaultSection && !Contains g s.name) := by
  induction l with
  | nil => rfl
  | cons a l ih =>
    rw [keepNonGranted]
    by_cases hd : a.name = DefaultSection
    · simp [hd, ih]
    · by_cases hc : Contains g a.name = true
      · simp [hd, hc, ih]
      · simp [hd, hc, ih]

theorem getNonGrantedProfiles_eq_filter (config : File) :
    getNonGrantedProfiles config =
      config.filter (fun s => s.name != DefaultSection &&
        decide (s.name ∉ SectionStrings (getGrantedGeneratedSections config))) := by
  unfold getNonGrantedProfiles getGrantedGeneratedSections
  rw [keepNonGranted_eq_filter]
  apply List.filter_congr
  intro s _
  by_cases hd : s.name = DefaultSection
  · simp [hd]
  · have h1 := mem_grantedProfileNames false config s.name hd
    have h2 := Contains_iff (grantedProfileNames false config) s.name
    by_cases hc : Contains (grantedProfileNames false config) s.name = true
    · have := h1.1 (h2.1 hc)
      simp [hd, hc, this]
    · have : s.name ∉ SectionStrings
          (scanSections "granted_registry_start" "granted_registry_end" false config) :=
        fun h => hc (h2.2 (h1.2 h))
      simp [hd, hc, this]

/-- In a list without two elements of the same key, a sublist is the filter by its keys. -/
theorem sublist_eq_filter_of_nodup {α β : Type} [DecidableEq β] (f : α → β) (l₁ l : List α)
    (hs : l₁.Sublist l) (hn : (l.map f).Nodup) :
    l₁ = l.filter (fun s => decide (f s ∈ l₁.map f)) := by
  induction hs with
  | slnil => rfl
  | @cons l₁ l a hs ih =>
    rw [List.map_cons, List.nodup_cons] at hn
    have hnot : f a ∉ l₁.map f := fun h => hn.1 ((hs.map f).subset h)
    rw [List.filter_cons]
    simp only [hnot, decide_False]
    exact ih hn.2
  | @cons₂ l₁ l a hs ih =>
    rw [List.map_cons, List.nodup_cons] at hn
    rw [List.filter_cons]
    simp only [List.map_cons, List.mem_cons, true_or, decide_True, if_true]
    congr 1
    conv_lhs => rw [ih hn.2]
    apply List.filter_congr
    intro s hs2
    have hne : f s ≠ f a := fun e => hn.1 (e ▸ List.mem_map_of_mem f hs2)
    simp [hne]

/-! ## Lemmas on the pattern of `appendNamespaceToDuplicateSections` -/

theorem profile_data : "profile".data = ['p', 'r', 'o', 'f', 'i', 'l', 'e'] := rfl

/-- The tail of the pattern matches only at the word `profile` followed by a whitespace
character. -/
theorem matchProfileTail_some (u r : List Char) (h : matchProfileTail u = some r) :
    ∃ c b, u = "profile".data ++ c :: b ∧ isRegexSpace c = true := by
  unfold matchProfileTail at h
  by_cases hp : "profile".data.isPrefixOf u = true
  · rw [if_pos hp] at h
    rw [List.isPrefixOf_iff_prefix] at hp
    obtain ⟨t, rfl⟩ := hp
    have hd : ("profile".data ++ t).drop 7 = t := by
      rw [profile_data]; rfl
    rw [hd] at h
    cases t with
    | nil => simp at h
    | cons c b =>
      refine ⟨c, b, rfl, ?_⟩
      by_cases hc : isRegexSpace c = true
      · exact hc
      · simp [hc] at h
  · rw [if_neg hp] at h
    cases h

theorem matchProfileTail_at (w : Char) (t : List Char) (hw : isRegexSpace w = true) :
    matchProfileTail ("profile".data ++ w :: t) =
      some (((w :: t).dropWhile isRegexSpace).takeWhile (fun d => d != '\n' && d != '\r')) := by
  unfold matchProfileTail
  have hp : "profile".data.isPrefixOf ("profile".data ++ w :: t) = true := by
    rw [List.isPrefixOf_iff_prefix]; exact List.prefix_append _ _
  have hd : ("profile".data ++ w :: t).drop 7 = w :: t := by
    rw [profile_data]; rfl
  rw [if_pos hp, hd]
  simp only [hw, if_true]

theorem NoProfileWord_tail (c : Char) (s : List Char) (h : NoProfileWord (c :: s)) :
    NoProfileWord s := by
  intro a b d e
  exact h (c :: a) b d (by rw [e]; simp)

theorem matchProfileTail_none (s : List Char) (h : NoProfileWord s) :
    matchProfileTail s = none := by
  cases hm : matchProfileTail s with
  | none => rfl
  | some r =>
    obtain ⟨c, b, e, hc⟩ := matchProfileTail_some _ _ hm
    have := h [] b c (by simpa using e)
    rw [this] at hc
    cases hc

theorem matchPatternHere_none (s : List Char) (h : NoProfileWord s) :
    matchPatternHere s = none := by
  induction s with
  | nil => rw [matchPatternHere]; exact matchProfileTail_none _ h
  | cons c cs ih =>
    rw [matchPatternHere, ih (NoProfileWord_tail c cs h), matchProfileTail_none _ h]
    split <;> rfl

theorem findNameGroup_none (s : List Char) (h : NoProfileWord s) :
    findNameGroup s = none := by
  induction s with
  | nil => rw [findNameGroup]; exact matchPatternHere_none _ h
  | cons c cs ih =>
    rw [findNameGroup, matchPatternHere_none _ h]
    exact ih (NoProfileWord_tail c cs h)

/-- A name without the word `profile` followed by whitespace is left as it is. -/
theorem appendNamespace_noMatch (pName ns : String) (h : NoProfileWord pName.data) :
    appendNamespaceToDuplicateSections pName ns = pName := by
  unfold appendNamespaceToDuplicateSections
  rw [findNameGroup_none _ h]

theorem findNameGroup_of_here (s r : List Char) (h : matchPatternHere s = some r) :
    findNameGroup s = some r := by
  cases s with
  | nil => rw [findNameGroup]; exact h
  | cons c cs => rw [findNameGroup, h]

theorem NoProfileWord_append_of_head (x : Char) (hx : x ≠ 'p') (t : List Char)
    (h : NoProfileWord t) : NoProfileWord (x :: t) := by
  intro a b c e
  cases a with
  | nil =>
    rw [profile_data] at e
    simp at e
    exact absurd e.1 hx
  | cons y a =>
    simp only [List.cons_append, List.cons.injEq] at e
    exact h a b c e.2

theorem NoProfileWord_spaces (ws n : List Char) (hws : ∀ c ∈ ws, isRegexSpace c = true)
    (hn : NoProfileWord n) : NoProfileWord (ws ++ n) := by
  induction ws with
  | nil => exact hn
  | cons w ws ih =>
    apply NoProfileWord_append_of_head
    · intro e
      have := hws w (List.mem_cons_self _ _)
      rw [e] at this
      exact absurd this (by decide)
    · exact ih (fun c hc => hws c (List.mem_cons_of_mem _ hc))

theorem dropWhile_spaces (ws n : List Char) (hws : ∀ c ∈ ws, isRegexSpace c = true)
    (hn0 : ∀ c t, n = c :: t → isRegexSpace c = false) :
    (ws ++ n).dropWhile isRegexSpace = n := by
  induction ws with
  | nil =>
    cases n with
    | nil => rfl
    | cons c t => simp [List.dropWhile, hn0 c t rfl]
  | cons w ws ih =>
    rw [List.cons_append, List.dropWhile_cons, if_pos (hws w (List.mem_cons_self _ _))]
    exact ih (fun c hc => hws c (List.mem_cons_of_mem _ hc))

theorem takeWhile_line (n : List Char) (h1 : '\n' ∉ n) (h2 : '\r' ∉ n) :
    n.takeWhile (fun d => d != '\n' && d != '\r') = n := by
  rw [List.takeWhile_eq_self_iff]
  intro c hc
  have a1 : c ≠ '\n' := fun e => h1 (e ▸ hc)
  have a2 : c ≠ '\r' := fun e => h2 (e ▸ hc)
  simp [a1, a2]

/-- The match of the whole pattern on `lead ++ profile ++ ws ++ n`. -/
theorem matchPatternHere_rewrite (lead ws n : List Char) (hlead : '\n' ∉ lead)
    (hws0 : ws ≠ []) (hws : ∀ c ∈ ws, isRegexSpace c = true)
    (h1 : '\n' ∉ n) (h2 : '\r' ∉ n)
    (hn0 : ∀ c t, n = c :: t → isRegexSpace c = false) (hno : NoProfileWord n) :
    matchPatternHere (lead ++ ("profile".data ++ (ws ++ n))) = some n := by
  induction lead with
  | nil =>
    have htail : matchProfileTail ("profile".data ++ (ws ++ n)) = some n := by
      cases ws with
      | nil => exact absurd rfl hws0
      | cons w ws2 =>
        have hat := matchProfileTail_at w (ws2 ++ n) (hws w (List.mem_cons_self _ _))
        have hdw : (w :: (ws2 ++ n)).dropWhile isRegexSpace = n :=
          dropWhile_spaces (w :: ws2) n hws hn0
        rw [hdw, takeWhile_line _ h1 h2] at hat
        exact hat
    have hrest : NoProfileWord (['r', 'o', 'f', 'i', 'l', 'e'] ++ (ws ++ n)) := by
      have := NoProfileWord_spaces ws n hws hno
      exact NoProfileWord_append_of_head 'r' (by decide) _
        (NoProfileWord_append_of_head 'o' (by decide) _
        (NoProfileWord_append_of_head 'f' (by decide) _
        (NoProfileWord_append_of_head 'i' (by decide) _
        (NoProfileWord_append_of_head 'l' (by decide) _
        (NoProfileWord_append_of_head 'e' (by decide) _ this)))))
    have hshape : [] ++ ("profile".data ++ (ws ++ n)) =
        'p' :: (['r', 'o', 'f', 'i', 'l', 'e'] ++ (ws ++ n)) := rfl
    rw [hshape, matchPatternHere, matchPatternHere_none _ hrest, ← hshape]
    simp only [List.nil_append]
    rw [htail]
    simp
  | cons c lead ih =>
    have hc : c ≠ '\n' := fun e => hlead (e ▸ List.mem_cons_self _ _)
    have := ih (fun h => hlead (List.mem_cons_of_mem _ h))
    rw [List.cons_append, matchPatternHere, this]
    simp [hc]

theorem NoProfileWord_nil : NoProfileWord [] := by
  intro a b c e
  have := congrArg List.length e
  simp at this
  omega

theorem NoProfileWord_cons (x : Char) (t : List Char)
    (h0 : matchProfileTail (x :: t) = none) (h : NoProfileWord t) : NoProfileWord (x :: t) := by
  intro a b c e
  cases a with
  | nil =>
    by_cases hc : isRegexSpace c = true
    · rw [e, List.nil_append, matchProfileTail_at c b hc] at h0
      cases h0
    · simpa using hc
  | cons y a =>
    simp only [List.cons_append, List.cons.injEq] at e
    exact h a b c e.2

theorem NoProfileWord_of_hasProfileWord (s : List Char) (h : hasProfileWord s = false) :
    NoProfileWord s := by
  induction s with
  | nil => exact NoProfileWord_nil
  | cons c cs ih =>
    rw [hasProfileWord, Bool.or_eq_false_iff] at h
    apply NoProfileWord_cons _ _ _ (ih h.2)
    cases hm : matchProfileTail (c :: cs) with
    | none => rfl
    | some r => rw [hm] at h; simp at h

/-! ## Lemmas on the scan without filter -/

theorem startWord_data :
    "granted_registry_start".data =
      ['g', 'r', 'a', 'n', 't', 'e', 'd', '_', 'r', 'e', 'g', 'i', 's', 't', 'r', 'y', '_',
        's', 't', 'a', 'r', 't'] := rfl

theorem endWord_data :
    "granted_registry_end".data =
      ['g', 'r', 'a', 'n', 't', 'e', 'd', '_', 'r', 'e', 'g', 'i', 's', 't', 'r', 'y', '_',
        'e', 'n', 'd'] := rfl

/-- A name with the start word in front is not the default name and has not the end
word in front. -/
theorem startWord_name (n : String) (h : HasPrefix n "granted_registry_start" = true) :
    n ≠ DefaultSection ∧ HasPrefix n "granted_registry_end" = false := by
  constructor
  · intro e
    rw [e, default_unmarked.1] at h
    cases h
  · rw [HasPrefix_iff, startWord_data] at h
    obtain ⟨t, ht⟩ := h
    rw [Bool.eq_false_iff, Ne, HasPrefix_iff, endWord_data, ← ht]
    rintro ⟨u, hu⟩
    simp at hu

/-- A name with the end word in front is not the default name and has not the start
word in front. -/
theorem endWord_name (n : String) (h : HasPrefix n "granted_registry_end" = true) :
    n ≠ DefaultSection ∧ HasPrefix n "granted_registry_start" = false := by
  constructor
  · intro e
    rw [e, default_unmarked.2] at h
    cases h
  · rw [HasPrefix_iff, endWord_data] at h
    obtain ⟨t, ht⟩ := h
    rw [Bool.eq_false_iff, Ne, HasPrefix_iff, startWord_data, ← ht]
    rintro ⟨u, hu⟩
    simp at hu

/-- What the scan returns for the head of a document does not depend on what follows;
what follows is scanned from the flag the head leaves. -/
theorem scanSections_append (sM eM : String) (l₁ : List Section) (b : Bool) :
    ∃ b2, ∀ l₂, scanSections sM eM b (l₁ ++ l₂) =
      scanSections sM eM b l₁ ++ scanSections sM eM b2 l₂ := by
  induction l₁ generalizing b with
  | nil => exact ⟨b, fun _ => rfl⟩
  | cons a l ih =>
    by_cases hd : a.name = DefaultSection
    · obtain ⟨b2, h⟩ := ih b
      refine ⟨b2, fun l₂ => ?_⟩
      rw [List.cons_append, scanSections, scanSections, if_pos hd, if_pos hd, h]
    · by_cases h1 : (HasPrefix a.name sM && !b) = true
      · obtain ⟨b2, h⟩ := ih true
        refine ⟨b2, fun l₂ => ?_⟩
        rw [List.cons_append, scanSections, scanSections, if_neg hd, if_neg hd,
          if_pos h1, if_pos h1, h, List.cons_append]
      · by_cases h2 : HasPrefix a.name eM = true
        · obtain ⟨b2, h⟩ := ih false
          refine ⟨b2, fun l₂ => ?_⟩
          rw [List.cons_append, scanSections, scanSections, if_neg hd, if_neg hd,
            if_neg h1, if_neg h1, if_pos h2, if_pos h2, h, List.cons_append]
        · obtain ⟨b2, h⟩ := ih b
          refine ⟨b2, fun l₂ => ?_⟩
          rw [List.cons_append, scanSections, scanSections, if_neg hd, if_neg hd,
            if_neg h1, if_neg h1, if_neg h2, if_neg h2, h]
          cases b
          · simp
          · simp

/-- Inside a block every section other than the default one is returned, up to the next
end marker. -/
theorem scanSections_inside_filter (sM eM : String) (mid rest : List Section)
    (h : ∀ s ∈ mid, HasPrefix s.name eM = false) :
    scanSections sM eM true (mid ++ rest) =
      mid.filter (fun s => s.name != DefaultSection) ++ scanSections sM eM true rest := by
  induction mid with
  | nil => rfl
  | cons a mid ih =>
    have ih2 := ih (fun s hs => h s (List.mem_cons_of_mem _ hs))
    have h2 := h a (List.mem_cons_self _ _)
    rw [List.cons_append, scanSections]
    by_cases hd : a.name = DefaultSection
    · simp [hd, ih2]
    · simp [hd, h2, ih2]

/-- A start marker is returned in either state of the flag and leaves the flag set. -/
theorem scanSections_startMarker (s : Section) (rest : List Section) (b : Bool)
    (hs : HasPrefix s.name "granted_registry_start" = true) :
    scanSections "granted_registry_start" "granted_registry_end" b (s :: rest) =
      s :: scanSections "granted_registry_start" "granted_registry_end" true rest := by
  obtain ⟨hd, he⟩ := startWord_name _ hs
  rw [scanSections, if_neg hd]
  cases b
  · simp [hs]
  · simp [hs, he]

/-- An end marker is returned in either state of the flag and leaves the flag unset. -/
theorem scanSections_endMarker (e : Section) (rest : List Section) (b : Bool)
    (he : HasPrefix e.name "granted_registry_end" = true) :
    scanSections "granted_registry_start" "granted_registry_end" b (e :: rest) =
      e :: scanSections "granted_registry_start" "granted_registry_end" false rest := by
  obtain ⟨hd, hs⟩ := endWord_name _ he
  rw [scanSections, if_neg hd]
  simp [hs, he]

theorem Unmarked_skip (u rest : List Section) (hu : Unmarked u) :
    scanSections "granted_registry_start" "granted_registry_end" false (u ++ rest) =
      scanSections "granted_registry_start" "granted_registry_end" false rest :=
  scanSections_skip_unmarked _ _ _ _ (fun s hs _ => hu s hs)

/-- The scan of a well-formed block, from either state of the flag. -/
theorem scanSections_block (b : Block) (hb : b.WellFormed) (rest : List Section)
    (flag : Bool) :
    scanSections "granted_registry_start" "granted_registry_end" flag (b.sections ++ rest) =
      b.sections.filter (fun s => s.name != DefaultSection) ++
        scanSections "granted_registry_start" "granted_registry_end" false rest := by
  obtain ⟨h1, h2, h3⟩ := hb
  have hd1 := (startWord_name _ h1).1
  have hd3 := (endWord_name _ h3).1
  unfold Block.sections
  simp only [List.cons_append, List.append_assoc, List.singleton_append]
  rw [scanSections_startMarker _ _ _ h1,
    scanSections_inside_filter _ _ _ _ (fun s hs => (h2 s hs).2),
    scanSections_endMarker _ _ _ h3]
  simp [List.filter_cons, List.filter_append, hd1, hd3]

theorem scan_layoutDocument (rest : List (Block × List Section))
    (h : ∀ p ∈ rest, p.1.WellFormed ∧ Unmarked p.2) :
    scanSections "granted_registry_start" "granted_registry_end" false (layoutDocument rest) =
      (layoutBlocks rest).filter (fun s => s.name != DefaultSection) := by
  induction rest with
  | nil => rfl
  | cons p rest ih =>
    obtain ⟨b, u⟩ := p
    have hp := h (b, u) (List.mem_cons_self _ _)
    have ih2 := ih (fun q hq => h q (List.mem_cons_of_mem _ hq))
    rw [layoutDocument, layoutBlocks, List.append_assoc, scanSections_block b hp.1,
      Unmarked_skip _ _ hp.2, ih2, List.filter_append]

/-! ## Lemmas on the state left by the regeneration -/

theorem createAll_append (f : File) (l₁ l₂ : List Section) :
    createAll f (l₁ ++ l₂) =
      match createAll f l₁ with
      | (g, none) => createAll g l₂
      | (g, some e) => (g, some e) := by
  induction l₁ generalizing f with
  | nil => rfl
  | cons s l ih =>
    rw [List.cons_append, createAll, createAll]
    by_cases h : s.name ∈ SectionStrings f
    · rw [if_pos h, if_pos h]
    · rw [if_neg h, if_neg h, ih]

/-- The copy loop creates the copied sections one after the other. -/
theorem copySectionsLive_eq (env : Collaborators) (cur : List String) (ns : String)
    (cloned cfg : File) :
    copySectionsLive env cur ns cloned cfg = createAll cfg (copiedSections env cur ns cloned) := by
  induction cloned generalizing cfg with
  | nil => rfl
  | cons sec rest ih =>
    by_cases hc : isCopied env sec = true
    · have hd : ¬ sec.name = DefaultSection := by
        intro hd; simp [isCopied, hd] at hc
      have hl : env.IsLegalProfileName (TrimPrefix sec.name "profile ") = true := by
        simpa [isCopied, hd] using hc
      rw [copiedSections_cons_copied _ _ _ _ _ hc, createAll, copySectionsLive, if_neg hd,
        if_pos hl]
      by_cases hcol : Contains cur sec.name = true
      · have e : copyOf cur ns sec = ⟨appendNamespaceToDuplicateSections sec.name ns,
            (if sec.comment = "" then "# profile name has been prefixed due to duplication"
              else "# profile name has been prefixed due to duplication. \n" ++ sec.comment),
            sec.keys⟩ := by simp [copyOf, hcol]
        rw [if_pos hcol, e]
        by_cases hin : appendNamespaceToDuplicateSections sec.name ns ∈ SectionStrings cfg
        · simp only [NewSection, hin, if_true]
        · simp only [NewSection, hin, if_false]
          rw [assignSection_fresh _ _ _ _ hin, ih]
      · have e : copyOf cur ns sec = ⟨sec.name, sec.comment, sec.keys⟩ := by
          simp [copyOf, hcol]
        rw [if_neg hcol, e]
        by_cases hin : sec.name ∈ SectionStrings cfg
        · simp only [NewSection, hin, if_true]
        · simp only [NewSection, hin, if_false]
          rw [assignSection_fresh _ _ _ _ hin, ih]
    · have hc2 : isCopied env sec = false := by simpa using hc
      rw [copiedSections_cons_skip _ _ _ _ _ hc2, ← ih, copySectionsLive]
      by_cases hd : sec.name = DefaultSection
      · rw [if_pos hd]
      · have hl : ¬ env.IsLegalProfileName (TrimPrefix sec.name "profile ") = true := by
          intro hl; simp [isCopied, hd, hl] at hc2
        rw [if_neg hd, if_neg hl]

theorem copySections_returned (env : Collaborators) (cur : List String) (ns : String)
    (cloned cfg : File) :
    copySections env cur ns cloned cfg = returned (copySectionsLive env cur ns cloned cfg) := by
  induction cloned generalizing cfg with
  | nil => rfl
  | cons sec rest ih =>
    rw [copySections, copySectionsLive]
    split
    · exact ih _
    · split
      · split
        · cases NewSection cfg (appendNamespaceToDuplicateSections sec.name ns) with
          | error e => rfl
          | ok created => exact ih _
        · cases NewSection cfg sec.name with
          | error e => rfl
          | ok created => exact ih _
      · exact ih _

/-- The regeneration creates the sections of the generated block one after the other. -/
theorem generateNewRegistrySectionLive_eq (env : Collaborators) (cfg cloned : File)
    (id : String) (first : Bool) :
    generateNewRegistrySectionLive env cfg cloned id first =
      createAll cfg (generatedBlock env cfg cloned id first) := by
  unfold generateNewRegistrySectionLive generatedBlock
  rw [List.cons_append, createAll]
  by_cases hs : "granted_registry_start " ++ id ∈ SectionStrings cfg
  · have hs2 : (startSection env id first).name ∈ SectionStrings cfg := hs
    simp only [NewSections, NewSection, hs, if_true]
    rw [if_pos hs2]
    rfl
  · have hs2 : (startSection env id first).name ∉ SectionStrings cfg := hs
    simp only [NewSections, NewSection, hs, if_false]
    rw [if_neg hs2]
    have hw : (if first = true then
          setComment (cfg ++ [⟨"granted_registry_start " ++ id, "", []⟩])
            ("granted_registry_start " ++ id) env.GetAutogeneratedTemplate
        else cfg ++ [⟨"granted_registry_start " ++ id, "", []⟩]) =
        cfg ++ [startSection env id first] := by
      cases first
      · simp [startSection]
      · simp [startSection, setComment_fresh _ _ _ hs]
    rw [hw]
    have hn : SectionStrings (cfg ++ [startSection env id first]) =
        SectionStrings cfg ++ ["granted_registry_start " ++ id] := by
      simp [SectionStrings, startSection]
    rw [hn, copySectionsLive_eq, createAll_append]
    have hcop : copiedSections env (SectionStrings cfg ++ ["granted_registry_start " ++ id])
        (formatURLToNamespace env id) cloned = copiedInto env cfg cloned id := rfl
    rw [hcop]
    rcases hca : createAll (cfg ++ [startSection env id first])
      (copiedInto env cfg cloned id) with ⟨g, _ | e⟩
    · simp only [createAll, endSection]
      by_cases he : "granted_registry_end " ++ id ∈ SectionStrings g
      · simp [he]
      · simp [he]
    · rfl

theorem generateNewRegistrySection_returned (env : Collaborators) (cfg cloned : File)
    (id : String) (first : Bool) :
    generateNewRegistrySection env cfg cloned id first =
      returned (generateNewRegistrySectionLive env cfg cloned id first) := by
  unfold generateNewRegistrySection generateNewRegistrySectionLive
  cases NewSections cfg ("granted_registry_start " ++ id) with
  | error e => rfl
  | ok started =>
    simp only
    rw [copySections_returned]
    rcases copySectionsLive env _ _ cloned _ with ⟨g, _ | e⟩
    · simp only [returned]
      cases NewSections g ("granted_registry_end " ++ id) with
      | error e => rfl
      | ok ended => rfl
    · rfl

/-- Creating stops at the first section whose name the document has, with the sections
before it created and none after. -/
theorem createAll_stops (f : File) (pre post : List Section) (s : Section)
    (hpre : (SectionStrings pre).Nodup ∧ ∀ n ∈ SectionStrings pre, n ∉ SectionStrings f)
    (hs : s.name ∈ SectionStrings (f ++ pre)) :
    createAll f (pre ++ s :: post) = (f ++ pre, some (.duplicateSection s.name)) := by
  induction pre generalizing f with
  | nil =>
    rw [List.append_nil] at hs
    rw [List.nil_append, createAll, if_pos hs, List.append_nil]
  | cons a pre ih =>
    obtain ⟨hnd, hfr⟩ := hpre
    simp only [SectionStrings, List.map_cons, List.nodup_cons] at hnd
    have ha : a.name ∉ SectionStrings f := hfr _ (by simp [SectionStrings])
    rw [List.cons_append, createAll, if_neg ha, ih (f ++ [a])]
    · simp
    · refine ⟨hnd.2, ?_⟩
      intro n hn
      rw [SectionStrings_append]
      simp only [List.mem_append, not_or]
      refine ⟨hfr n (by simp only [SectionStrings, List.map_cons, List.mem_cons]; exact Or.inr hn), ?_⟩
      simp only [SectionStrings, List.map_cons, List.map_nil, List.mem_singleton]
      intro e
      exact hnd.1 (e ▸ hn)
    · simpa using hs

/-! ## The claims -/

/-- C1: when the target holds no section whose name begins with
`granted_registry_start <id>` or `granted_registry_end <id>` and the regeneration for
`id` succeeds, the scan of the result filtered by `id` is the start marker, then one
section for every section of the cloned file that the copy test accepts (not the default
section, legal name), in the order of the cloned file, then the end marker.  The
validator is a parameter, assumed to accept no name with a blank. -/
theorem regenerate_then_scan (env : Collaborators) (hb : RejectsBlank env)
    (configFile clonedFile : File) (repoURL : String) (isFirstSection : Bool) (D : File)
    (hT : ∀ s ∈ configFile,
      HasPrefix s.name ("granted_registry_start " ++ repoURL) = false ∧
        HasPrefix s.name ("granted_registry_end " ++ repoURL) = false)
    (hok : generateNewRegistrySection env configFile clonedFile repoURL isFirstSection
      = .ok D) :
    getGeneratedSectionByRegistryURL D repoURL =
      startSection env repoURL isFirstSection ::
        (clonedFile.filter (isCopied env)).map
          (copyOf (SectionStrings configFile ++ ["granted_registry_start " ++ repoURL])
            (formatURLToNamespace env repoURL))
        ++ [endSection repoURL] := by
  rw [generateNewRegistrySection_ok_iff] at hok
  obtain ⟨-, rfl⟩ := hok
  exact scan_generatedBlock env hb configFile configFile clonedFile repoURL isFirstSection
    (fun s hs _ => hT s hs)

/-- Instance of C1 on the sample documents. -/
theorem regenerate_then_scan_witness :
    generateNewRegistrySection sampleCollaborators sampleTarget sampleCloned
      "github.com/org/repo" true = .ok sampleGenerated ∧
    getGeneratedSectionByRegistryURL sampleGenerated "github.com/org/repo" =
      [⟨"granted_registry_start github.com/org/repo", "# autogenerated, do not edit", []⟩,
        ⟨"profile repo.foo", "# profile name has been prefixed due to duplication",
          [("region", "us-east-1")]⟩,
        ⟨"profile bar", "# shared", [("sso_region", "us-east-1")]⟩,
        ⟨"granted_registry_end github.com/org/repo", "", []⟩] :=
  ⟨sample_generate,
    regenerate_then_scan sampleCollaborators sample_rejectsBlank sampleTarget sampleCloned
      "github.com/org/repo" true sampleGenerated (by decide) sample_generate⟩

/-- C2: the scan filtered by `https://github.com/a/b` of a document that holds only a
well-formed block for `https://github.com/a/b-extra` returns that whole block: the
marker test is a prefix test and the shorter URL is a prefix of the longer one. -/
theorem scan_by_url_takes_block_of_longer_url :
    getGeneratedSectionByRegistryURL sampleLongerURLBlock "https://github.com/a/b" =
      sampleLongerURLBlock := by
  decide

/-- C3: after `RemoveAutogeneratedProfileByRegistryURL` the scan filtered by the same
identifier is empty, and removing a second time leaves the document as the first
removal left it.  This holds for every document, with unique section names or not. -/
theorem remove_by_url_idempotent (cFile : File) (repoURL : String) :
    getGeneratedSectionByRegistryURL
        (RemoveAutogeneratedProfileByRegistryURL cFile repoURL) repoURL = [] ∧
      RemoveAutogeneratedProfileByRegistryURL
        (RemoveAutogeneratedProfileByRegistryURL cFile repoURL) repoURL =
      RemoveAutogeneratedProfileByRegistryURL cFile repoURL := by
  refine ⟨scan_after_remove_by_url cFile repoURL, ?_⟩
  have hdef : ∀ f : File, RemoveAutogeneratedProfileByRegistryURL f repoURL =
      deleteSections f (getGeneratedSectionByRegistryURL f repoURL) := fun _ => rfl
  rw [hdef (RemoveAutogeneratedProfileByRegistryURL cFile repoURL), scan_after_remove_by_url]
  rfl

/-- C4: when the target holds a section `t` named `profile foo`, the cloned file holds a
section `s` named `profile foo`, the namespace of the URL is `repo` and the regeneration
succeeds, the result holds `t` as it was and a section named `profile repo.foo`, a name
the target did not have, with the keys of `s` and a comment that is the collision notice,
followed by the comment of `s` when there is one.  The validator is a parameter, assumed
to accept the name `foo`. -/
theorem collision_renaming (env : Collaborators) (configFile clonedFile : File)
    (repoURL : String) (isFirstSection : Bool) (D : File) (t s : Section)
    (hlegal : env.IsLegalProfileName "foo" = true)
    (hns : formatURLToNamespace env repoURL = "repo")
    (ht : t ∈ configFile) (htn : t.name = "profile foo")
    (hs : s ∈ clonedFile) (hsn : s.name = "profile foo")
    (hok : generateNewRegistrySection env configFile clonedFile repoURL isFirstSection
      = .ok D) :
    t ∈ D ∧ "profile repo.foo" ∉ SectionStrings configFile ∧
      ∃ r ∈ D, r.name = "profile repo.foo" ∧ r.keys = s.keys ∧
        r.comment = (if s.comment = "" then collisionNotice
          else collisionNotice ++ ". \n" ++ s.comment) ∧
        collisionNotice.data <+: r.comment.data := by
  rw [generateNewRegistrySection_ok_iff] at hok
  obtain ⟨hfresh, rfl⟩ := hok
  have hcop : isCopied env s = true := by
    have h1 : TrimPrefix "profile foo" "profile " = "foo" := by decide
    have h2 : ("profile foo" != DefaultSection) = true := by decide
    simp only [isCopied, hsn, h1, h2, hlegal, Bool.and_self]
  have hcol : Contains (SectionStrings configFile ++ ["granted_registry_start " ++ repoURL])
      s.name = true := by
    rw [Contains_iff, hsn, ← htn]
    exact List.mem_append_left _ (List.mem_map_of_mem _ ht)
  have hren : appendNamespaceToDuplicateSections "profile foo" "repo" = "profile repo.foo" := by
    decide
  have hr : copyOf (SectionStrings configFile ++ ["granted_registry_start " ++ repoURL])
      (formatURLToNamespace env repoURL) s =
      ⟨"profile repo.foo",
        if s.comment = "" then collisionNotice else collisionNotice ++ ". \n" ++ s.comment,
        s.keys⟩ := by
    have hcol2 := hcol
    rw [hsn] at hcol2
    simp only [copyOf, hcol2, if_true, hns, hsn, hren, collisionComment_eq]
    rfl
  have hmem : copyOf (SectionStrings configFile ++ ["granted_registry_start " ++ repoURL])
      (formatURLToNamespace env repoURL) s ∈
      generatedBlock env configFile clonedFile repoURL isFirstSection := by
    unfold generatedBlock copiedInto copiedSections
    simp only [List.cons_append, List.mem_cons, List.mem_append, List.mem_map,
      List.mem_filter]
    exact Or.inr (Or.inl ⟨s, ⟨hs, hcop⟩, rfl⟩)
  refine ⟨List.mem_append_left _ ht, ?_, _, List.mem_append_right _ hmem, ?_⟩
  · apply hfresh.2
    rw [SectionStrings_generatedBlock]
    have hin : (copyOf (SectionStrings configFile ++ ["granted_registry_start " ++ repoURL])
        (formatURLToNamespace env repoURL) s).name ∈
        SectionStrings (generatedBlock env configFile clonedFile repoURL isFirstSection) :=
      List.mem_map_of_mem _ hmem
    rw [hr, SectionStrings_generatedBlock] at hin
    exact hin
  · rw [hr]
    refine ⟨rfl, rfl, rfl, ?_⟩
    simp only
    split
    · exact List.prefix_refl _
    · rw [String.append_assoc, String.data_append]
      exact List.prefix_append _ _

/-- Instance of C4 on the sample documents. -/
theorem collision_renaming_witness :
    generateNewRegistrySection sampleCollaborators sampleTarget sampleCloned
      "github.com/org/repo" true = .ok sampleGenerated ∧
    ((⟨"profile foo", "# mine", [("region", "eu-west-1")]⟩ : Section) ∈ sampleGenerated ∧
      "profile repo.foo" ∉ SectionStrings sampleTarget ∧
      ∃ r ∈ sampleGenerated, r.name = "profile repo.foo" ∧
        r.keys = [("region", "us-east-1")] ∧
        r.comment = (if "" = "" then collisionNotice else collisionNotice ++ ". \n" ++ "") ∧
        collisionNotice.data <+: r.comment.data) :=
  ⟨sample_generate,
    collision_renaming sampleCollaborators sampleTarget sampleCloned "github.com/org/repo"
      true sampleGenerated ⟨"profile foo", "# mine", [("region", "eu-west-1")]⟩
      ⟨"profile foo", "", [("region", "us-east-1")]⟩ (by decide) (by decide) (by decide) rfl
      (by decide) rfl sample_generate⟩

/-- C5: a successful regeneration adds the start marker, one section for every section
of the cloned file that is not the default section and whose name, without a leading
`profile `, is a legal profile name, and the end marker, and nothing else: a section of
the cloned file that fails this test is not created, whether its name is in the target
or not. -/
theorem regenerate_copies_legal_only (env : Collaborators) (configFile clonedFile : File)
    (repoURL : String) (isFirstSection : Bool) (D : File)
    (hok : generateNewRegistrySection env configFile clonedFile repoURL isFirstSection
      = .ok D) :
    ∃ added : List Section,
      D = configFile ++ startSection env repoURL isFirstSection :: added
        ++ [endSection repoURL] ∧
      added = (clonedFile.filter (fun s => s.name != DefaultSection &&
          env.IsLegalProfileName (TrimPrefix s.name "profile "))).map
        (copyOf (SectionStrings configFile ++ ["granted_registry_start " ++ repoURL])
          (formatURLToNamespace env repoURL)) ∧
      D.length = configFile.length + 2 + (clonedFile.filter (fun s =>
        s.name != DefaultSection &&
          env.IsLegalProfileName (TrimPrefix s.name "profile "))).length := by
  rw [generateNewRegistrySection_ok_iff] at hok
  obtain ⟨-, rfl⟩ := hok
  have hfun : (fun s : Section => s.name != DefaultSection &&
      env.IsLegalProfileName (TrimPrefix s.name "profile ")) = isCopied env := rfl
  rw [hfun]
  refine ⟨_, ?_, rfl, ?_⟩
  · simp [generatedBlock, copiedInto, copiedSections]
  · simp [generatedBlock, copiedInto, copiedSections]
    omega

/-- Instance of C5 on the sample documents: the section `not a profile` of the cloned
file is not created. -/
theorem regenerate_copies_legal_only_witness :
    generateNewRegistrySection sampleCollaborators sampleTarget sampleCloned
      "github.com/org/repo" true = .ok sampleGenerated ∧
    ∃ added : List Section,
      sampleGenerated = sampleTarget ++ startSection sampleCollaborators
        "github.com/org/repo" true :: added ++ [endSection "github.com/org/repo"] ∧
      added = (sampleCloned.filter (fun s => s.name != DefaultSection &&
          sampleCollaborators.IsLegalProfileName (TrimPrefix s.name "profile "))).map
        (copyOf (SectionStrings sampleTarget ++
            ["granted_registry_start " ++ "github.com/org/repo"])
          (formatURLToNamespace sampleCollaborators "github.com/org/repo")) ∧
      sampleGenerated.length = sampleTarget.length + 2 + (sampleCloned.filter (fun s =>
        s.name != DefaultSection &&
          sampleCollaborators.IsLegalProfileName (TrimPrefix s.name "profile "))).length :=
  ⟨sample_generate,
    regenerate_copies_legal_only sampleCollaborators sampleTarget sampleCloned
      "github.com/org/repo" true sampleGenerated sample_generate⟩

/-- C6: on a target that holds nothing but the default section, for a cloned file whose
sections other than the default one have legal and pairwise distinct names, the
regeneration with `isFirstSection` set succeeds, and the sections of the result other
than the default one are the start marker with the autogenerated notice as comment, the
sections of the cloned file as they are and in their order, and the end marker.  The
validator is a parameter, assumed to accept no name with a blank. -/
theorem regenerate_on_empty (env : Collaborators) (hb : RejectsBlank env)
    (configFile clonedFile : File) (repoURL : String)
    (hempty : ∀ s ∈ configFile, s.name = DefaultSection)
    (hlegal : ∀ s ∈ clonedFile, s.name ≠ DefaultSection →
      env.IsLegalProfileName (TrimPrefix s.name "profile ") = true)
    (hdistinct :
      (SectionStrings (clonedFile.filter (fun s => s.name != DefaultSection))).Nodup) :
    ∃ D, generateNewRegistrySection env configFile clonedFile repoURL true = .ok D ∧
      D.filter (fun s => s.name != DefaultSection) =
        ⟨"granted_registry_start " ++ repoURL, env.GetAutogeneratedTemplate, []⟩ ::
          clonedFile.filter (fun s => s.name != DefaultSection)
          ++ [⟨"granted_registry_end " ++ repoURL, "", []⟩] := by
  have hsd := (startMarked_name _ repoURL (HasPrefix_self ("granted_registry_start " ++ repoURL))).2.2
  have hed := (endMarked_name _ repoURL (HasPrefix_self ("granted_registry_end " ++ repoURL))).2.2
  have hfilter : clonedFile.filter (isCopied env) =
      clonedFile.filter (fun s => s.name != DefaultSection) := by
    apply List.filter_congr
    intro s hs
    by_cases hd : s.name = DefaultSection
    · simp [isCopied, hd]
    · simp [isCopied, hd, hlegal s hs hd]
  have hnm : ∀ s ∈ clonedFile.filter (fun s => s.name != DefaultSection),
      s.name ≠ DefaultSection ∧ s.name ≠ "granted_registry_start " ++ repoURL ∧
        s.name ≠ "granted_registry_end " ++ repoURL := by
    intro s hs
    rw [List.mem_filter] at hs
    have hd : s.name ≠ DefaultSection := by simpa using hs.2
    have hu := legal_unmarked env hb s.name repoURL (hlegal s hs.1 hd)
    refine ⟨hd, ?_, ?_⟩
    · intro e
      rw [e, HasPrefix_self] at hu
      cases hu.1
    · intro e
      rw [e, HasPrefix_self] at hu
      cases hu.2
  have hcopied : copiedInto env configFile clonedFile repoURL =
      clonedFile.filter (fun s => s.name != DefaultSection) := by
    unfold copiedInto copiedSections
    rw [hfilter]
    conv_rhs => rw [← List.map_id (clonedFile.filter (fun s => s.name != DefaultSection))]
    apply List.map_congr_left
    intro s hs
    obtain ⟨h1, h2, -⟩ := hnm s hs
    have hc : ¬ Contains (SectionStrings configFile ++ ["granted_registry_start " ++ repoURL])
        s.name = true := by
      rw [Contains_iff, List.mem_append, List.mem_singleton]
      rintro (h | h)
      · simp only [SectionStrings, List.mem_map] at h
        obtain ⟨t, ht, hts⟩ := h
        exact h1 (hts ▸ hempty t ht)
      · exact h2 h
    simp [copyOf, hc]
  have hblock : ∀ first, generatedBlock env configFile clonedFile repoURL first =
      startSection env repoURL first ::
        clonedFile.filter (fun s => s.name != DefaultSection) ++ [endSection repoURL] := by
    intro first
    rw [generatedBlock, hcopied]
  have hmemN : ∀ n ∈ SectionStrings (clonedFile.filter (fun s => s.name != DefaultSection)),
      n ≠ DefaultSection ∧ n ≠ "granted_registry_start " ++ repoURL ∧
        n ≠ "granted_registry_end " ++ repoURL := by
    intro n hn
    simp only [SectionStrings, List.mem_map] at hn
    obtain ⟨s, hs, rfl⟩ := hn
    exact hnm s hs
  refine ⟨configFile ++ generatedBlock env configFile clonedFile repoURL true, ?_, ?_⟩
  · rw [generateNewRegistrySection_ok_iff]
    refine ⟨⟨?_, ?_⟩, rfl⟩
    · rw [SectionStrings_generatedBlock, hcopied]
      simp only [List.cons_append, List.nodup_cons, List.mem_append, List.mem_singleton, not_or]
      refine ⟨⟨fun h => (hmemN _ h).2.1 rfl, fun h => endMarker_ne_startMarker repoURL h.symm⟩, ?_⟩
      rw [List.nodup_append]
      refine ⟨hdistinct, by simp, ?_⟩
      intro a ha hb2
      rw [List.mem_singleton] at hb2
      exact (hmemN a ha).2.2 hb2
    · intro n hn hin
      have hnd : n = DefaultSection := by
        simp only [SectionStrings, List.mem_map] at hin
        obtain ⟨t, ht, rfl⟩ := hin
        exact hempty t ht
      rw [SectionStrings_generatedBlock, hcopied] at hn
      simp only [List.cons_append, List.mem_cons, List.mem_append, List.mem_singleton,
        List.not_mem_nil, or_false] at hn
      rcases hn with h | h | h
      · exact hsd (h ▸ hnd)
      · exact (hmemN n h).1 hnd
      · exact hed (h ▸ hnd)
  · rw [hblock, List.filter_append]
    have h1 : configFile.filter (fun s => s.name != DefaultSection) = [] := by
      rw [List.filter_eq_nil_iff]
      intro a ha
      simp [hempty a ha]
    rw [h1, List.nil_append, List.cons_append, List.filter_cons, List.filter_append,
      List.filter_filter]
    simp [startSection, endSection, hsd, hed]

/-- Instance of C6: the URL `repoA`, the profiles `x` and `y`. -/
theorem regenerate_on_empty_witness :
    generateNewRegistrySection sampleCollaborators sampleEmpty sampleXY "repoA" true =
      .ok [⟨"DEFAULT", "", []⟩,
        ⟨"granted_registry_start repoA", "# autogenerated, do not edit", []⟩,
        ⟨"profile x", "", [("region", "us-east-1")]⟩,
        ⟨"profile y", "# second", [("region", "us-west-2")]⟩,
        ⟨"granted_registry_end repoA", "", []⟩] ∧
    ∃ D, generateNewRegistrySection sampleCollaborators sampleEmpty sampleXY "repoA" true
        = .ok D ∧
      D.filter (fun s => s.name != DefaultSection) =
        ⟨"granted_registry_start " ++ "repoA", sampleCollaborators.GetAutogeneratedTemplate,
            []⟩ ::
          sampleXY.filter (fun s => s.name != DefaultSection)
          ++ [⟨"granted_registry_end " ++ "repoA", "", []⟩] :=
  ⟨by rfl,
    regenerate_on_empty sampleCollaborators sample_rejectsBlank sampleEmpty sampleXY "repoA"
      (by decide) (by decide) (by decide)⟩

/-- C7: when removing the sections of `repoURL` from a document and regenerating
succeeds with document `D`, the same two steps applied to `D` give `D` again, and `D`
holds exactly one section whose name begins with the start marker of `repoURL`.  The
validator is a parameter, assumed to accept no name with a blank. -/
theorem remove_then_regenerate_idempotent (env : Collaborators) (hb : RejectsBlank env)
    (T clonedFile : File) (repoURL : String) (isFirstSection : Bool) (D : File)
    (hok : generateNewRegistrySection env
      (RemoveAutogeneratedProfileByRegistryURL T repoURL) clonedFile repoURL isFirstSection
      = .ok D) :
    generateNewRegistrySection env
        (RemoveAutogeneratedProfileByRegistryURL D repoURL) clonedFile repoURL isFirstSection
      = .ok D ∧
    (D.filter (fun s => HasPrefix s.name ("granted_registry_start " ++ repoURL))).length
      = 1 := by
  have hok2 := hok
  rw [generateNewRegistrySection_ok_iff] at hok2
  obtain ⟨hfresh, hD⟩ := hok2
  have hpre := remove_by_url_unmarked T repoURL
  constructor
  · rw [hD, remove_generatedBlock env hb _ clonedFile repoURL isFirstSection hpre hfresh,
      ← hD]
    exact hok
  · rw [hD, List.filter_append]
    have h1 : (RemoveAutogeneratedProfileByRegistryURL T repoURL).filter
        (fun s => HasPrefix s.name ("granted_registry_start " ++ repoURL)) = [] := by
      rw [List.filter_eq_nil_iff]
      intro a ha hp
      have hd := (startMarked_name _ _ hp).2.2
      rw [(hpre a ha hd).1] at hp
      cases hp
    have h2 : (copiedInto env (RemoveAutogeneratedProfileByRegistryURL T repoURL)
        clonedFile repoURL).filter
        (fun s => HasPrefix s.name ("granted_registry_start " ++ repoURL)) = [] := by
      rw [List.filter_eq_nil_iff]
      intro a ha hp
      simp only [copiedInto, copiedSections, List.mem_map, List.mem_filter] at ha
      obtain ⟨sec, ⟨-, hc⟩, rfl⟩ := ha
      rw [(copyOf_unmarked env hb _ _ sec hc repoURL).1] at hp
      cases hp
    rw [h1, List.nil_append, generatedBlock, List.cons_append, List.filter_cons,
      List.filter_append, h2]
    simp [startSection, endSection, HasPrefix_self, endMarker_not_startMarked]

/-- Instance of C7 on a document that holds a stale block of the registry. -/
theorem remove_then_regenerate_idempotent_witness :
    generateNewRegistrySection sampleCollaborators
        (RemoveAutogeneratedProfileByRegistryURL sampleStale "github.com/org/repo")
        sampleCloned "github.com/org/repo" true = .ok sampleGenerated ∧
    generateNewRegistrySection sampleCollaborators
        (RemoveAutogeneratedProfileByRegistryURL sampleGenerated "github.com/org/repo")
        sampleCloned "github.com/org/repo" true = .ok sampleGenerated ∧
    (sampleGenerated.filter
      (fun s => HasPrefix s.name ("granted_registry_start " ++ "github.com/org/repo"))).length
      = 1 :=
  ⟨by rfl, remove_then_regenerate_idempotent sampleCollaborators sample_rejectsBlank
    sampleStale sampleCloned "github.com/org/repo" true sampleGenerated (by rfl)⟩

/-- C8: a successful regeneration leaves the sections of the target as they were, at the
head of the document and in their order, puts the generated block after them, and the
last section of the result is the end marker of the URL. -/
theorem regenerate_frame (env : Collaborators) (configFile clonedFile : File)
    (repoURL : String) (isFirstSection : Bool) (D : File)
    (hok : generateNewRegistrySection env configFile clonedFile repoURL isFirstSection
      = .ok D) :
    D.take configFile.length = configFile ∧
      D.drop configFile.length =
        generatedBlock env configFile clonedFile repoURL isFirstSection ∧
      D.getLast? = some ⟨"granted_registry_end " ++ repoURL, "", []⟩ := by
  rw [generateNewRegistrySection_ok_iff] at hok
  obtain ⟨-, rfl⟩ := hok
  refine ⟨by simp, by simp, ?_⟩
  unfold generatedBlock
  rw [← List.append_assoc, List.getLast?_concat]
  rfl

/-- Instance of C8 on the sample documents. -/
theorem regenerate_frame_witness :
    generateNewRegistrySection sampleCollaborators sampleTarget sampleCloned
      "github.com/org/repo" true = .ok sampleGenerated ∧
    (sampleGenerated.take sampleTarget.length = sampleTarget ∧
      sampleGenerated.drop sampleTarget.length =
        generatedBlock sampleCollaborators sampleTarget sampleCloned
          "github.com/org/repo" true ∧
      sampleGenerated.getLast? =
        some ⟨"granted_registry_end " ++ "github.com/org/repo", "", []⟩) :=
  ⟨sample_generate,
    regenerate_frame sampleCollaborators sampleTarget sampleCloned "github.com/org/repo"
      true sampleGenerated sample_generate⟩

/-- C9: when the scan without filter returns at most one section,
`removeAutogeneratedProfiles` deletes nothing: the saved document is the input. -/
theorem remove_all_guard (configFile : File)
    (h : (getGrantedGeneratedSections configFile).length ≤ 1) :
    removeAutogeneratedProfiles configFile = configFile := by
  unfold removeAutogeneratedProfiles
  simp only
  rw [if_neg (by omega)]

/-- Instance of C9: a lone start marker as the last section. -/
theorem remove_all_guard_witness :
    getGrantedGeneratedSections sampleLoneMarker =
        [⟨"granted_registry_start https://github.com/a/b", "", []⟩] ∧
      removeAutogeneratedProfiles sampleLoneMarker = sampleLoneMarker :=
  ⟨by decide, remove_all_guard sampleLoneMarker (by decide)⟩

/-- C10: for a document with unique section names whose scan without filter returns
more than one section, the sections other than the default one that
`removeAutogeneratedProfiles` leaves are the sections `getNonGrantedProfiles` returns on
the input; these are sections of the input in the order of the input; and they and
the sections `getGrantedGeneratedSections` returns share no section and together are the
sections of the input other than the default one. -/
theorem remove_all_keeps_user_sections (configFile : File)
    (hu : (SectionStrings configFile).Nodup)
    (h : 1 < (getGrantedGeneratedSections configFile).length) :
    (removeAutogeneratedProfiles configFile).filter (fun s => s.name != DefaultSection) =
        getNonGrantedProfiles configFile ∧
      (getNonGrantedProfiles configFile).Sublist configFile ∧
      (getGrantedGeneratedSections configFile ++ getNonGrantedProfiles configFile).Perm
        (configFile.filter (fun s => s.name != DefaultSection)) ∧
      ∀ s ∈ getGrantedGeneratedSections configFile, s ∉ getNonGrantedProfiles configFile := by
  have hsub : (getGrantedGeneratedSections configFile).Sublist configFile :=
    scanSections_sublist _ _ _ _
  have hnd : ∀ s ∈ getGrantedGeneratedSections configFile, s.name ≠ DefaultSection :=
    scanSections_not_default _ _ _ _
  refine ⟨?_, ?_, ?_, ?_⟩
  · unfold removeAutogeneratedProfiles
    simp only
    rw [if_pos h, deleteSections_eq_filter, List.filter_filter,
      getNonGrantedProfiles_eq_filter]
  · rw [getNonGrantedProfiles_eq_filter]
    exact List.filter_sublist _
  · have h1 : getGrantedGeneratedSections configFile =
        (configFile.filter (fun s => s.name != DefaultSection)).filter
          (fun s => decide (s.name ∈ SectionStrings (getGrantedGeneratedSections configFile))) := by
      conv_lhs => rw [sublist_eq_filter_of_nodup (fun s : Section => s.name) _ _ hsub hu]
      rw [List.filter_filter]
      apply List.filter_congr
      intro s _
      by_cases hm : s.name ∈ SectionStrings (getGrantedGeneratedSections configFile)
      · have hm2 := hm
        simp only [SectionStrings, List.mem_map] at hm2
        obtain ⟨t, ht, hts⟩ := hm2
        have : s.name ≠ DefaultSection := hts ▸ hnd t ht
        have hm3 : s.name ∈ List.map (fun s => s.name) (getGrantedGeneratedSections configFile) := hm
        simp [hm, hm3, this]
      · have hm3 : s.name ∉ List.map (fun s => s.name) (getGrantedGeneratedSections configFile) := hm
        simp [hm, hm3]
    have h2 : getNonGrantedProfiles configFile =
        (configFile.filter (fun s => s.name != DefaultSection)).filter
          (fun s => !decide (s.name ∈ SectionStrings (getGrantedGeneratedSections configFile))) := by
      rw [getNonGrantedProfiles_eq_filter, List.filter_filter]
      apply List.filter_congr
      intro s _
      simp [Bool.and_comm]
    conv_lhs => rw [h1, h2]
    exact List.filter_append_perm _ _
  · intro s hs hmem
    rw [getNonGrantedProfiles_eq_filter, List.mem_filter] at hmem
    have : s.name ∉ SectionStrings (getGrantedGeneratedSections configFile) := by
      have h3 := hmem.2
      simp only [Bool.and_eq_true, decide_eq_true_eq] at h3
      exact h3.2
    exact this (List.mem_map_of_mem _ hs)

/-- Instance of C10 on a document with two generated blocks. -/
theorem remove_all_keeps_user_sections_witness :
    removeAutogeneratedProfiles sampleTwoBlocks =
        [⟨"DEFAULT", "", []⟩, ⟨"profile mine", "", [("region", "eu-west-1")]⟩,
          ⟨"profile between", "", []⟩, ⟨"profile last", "", []⟩] ∧
    ((removeAutogeneratedProfiles sampleTwoBlocks).filter
          (fun s => s.name != DefaultSection) = getNonGrantedProfiles sampleTwoBlocks ∧
      (getNonGrantedProfiles sampleTwoBlocks).Sublist sampleTwoBlocks ∧
      (getGrantedGeneratedSections sampleTwoBlocks ++
          getNonGrantedProfiles sampleTwoBlocks).Perm
        (sampleTwoBlocks.filter (fun s => s.name != DefaultSection)) ∧
      ∀ s ∈ getGrantedGeneratedSections sampleTwoBlocks,
        s ∉ getNonGrantedProfiles sampleTwoBlocks) :=
  ⟨by decide, remove_all_keeps_user_sections sampleTwoBlocks (by decide) (by decide)⟩

/-- C11: on a document `u0 ++ B1 ++ u1 ++ ... ++ Bn ++ un`, where every `Bi` is a start
marker, sections without marker name and an end marker, and no section of the `ui` has a
marker name, `getGrantedGeneratedSections` returns `B1 ++ ... ++ Bn` without the default
section: both markers of every block, every section between them, no section of a
`ui`. -/
theorem scan_wellFormed (u0 : List Section) (rest : List (Block × List Section))
    (hu0 : Unmarked u0) (h : ∀ p ∈ rest, p.1.WellFormed ∧ Unmarked p.2) :
    getGrantedGeneratedSections (u0 ++ layoutDocument rest) =
      (layoutBlocks rest).filter (fun s => s.name != DefaultSection) := by
  unfold getGrantedGeneratedSections
  rw [Unmarked_skip _ _ hu0, scan_layoutDocument rest h]

/-- Instance of C11: two blocks between user sections. -/
theorem scan_wellFormed_witness :
    sampleTwoBlocks = [⟨"DEFAULT", "", []⟩, ⟨"profile mine", "", [("region", "eu-west-1")]⟩]
        ++ layoutDocument sampleLayout ∧
      getGrantedGeneratedSections
          ([⟨"DEFAULT", "", []⟩, ⟨"profile mine", "", [("region", "eu-west-1")]⟩]
            ++ layoutDocument sampleLayout) =
        (layoutBlocks sampleLayout).filter (fun s => s.name != DefaultSection) :=
  ⟨by decide,
    scan_wellFormed [⟨"DEFAULT", "", []⟩, ⟨"profile mine", "", [("region", "eu-west-1")]⟩]
      sampleLayout (by decide) (by decide)⟩

/-- C12: for a name `lead ++ profile ++ ws ++ n`, where `ws` is a non-empty run of
whitespace, `lead` holds no newline, `n` holds no newline and no carriage return, does
not begin with whitespace and holds no `profile` followed by whitespace, the result is
`profile <ns>.<n>`: the leading text is dropped and the run of whitespace becomes one
blank.  `lead` may hold further occurrences of `profile` followed by whitespace. -/
theorem appendNamespace_rewrite (lead ws n ns : String)
    (hlead : '\n' ∉ lead.data)
    (hws0 : ws.data ≠ []) (hws : ∀ c ∈ ws.data, isRegexSpace c = true)
    (hn1 : '\n' ∉ n.data) (hn2 : '\r' ∉ n.data)
    (hn0 : ∀ c t, n.data = c :: t → isRegexSpace c = false)
    (hno : NoProfileWord n.data) :
    appendNamespaceToDuplicateSections (lead ++ "profile" ++ ws ++ n) ns =
      "profile " ++ ns ++ "." ++ n := by
  unfold appendNamespaceToDuplicateSections
  have hd : (lead ++ "profile" ++ ws ++ n).data =
      lead.data ++ ("profile".data ++ (ws.data ++ n.data)) := by
    simp [String.data_append, List.append_assoc]
  rw [hd, findNameGroup_of_here _ _
    (matchPatternHere_rewrite lead.data ws.data n.data hlead hws0 hws hn1 hn2 hn0 hno)]

/-- Instance of C12: two occurrences of the word, a run of a blank and a tab. -/
theorem appendNamespace_rewrite_witness :
    appendNamespaceToDuplicateSections ("x profile a " ++ "profile" ++ " \t" ++ "b.c") "repo" =
      "profile " ++ "repo" ++ "." ++ "b.c" :=
  appendNamespace_rewrite "x profile a " " \t" "b.c" "repo" (by decide) (by decide)
    (by decide) (by decide) (by decide)
    (by intro c t e; cases e; decide)
    (NoProfileWord_of_hasProfileWord _ (by decide))

/-- C13: a name that holds no occurrence of the word `profile` followed by a whitespace
character is returned as it is, whatever the namespace. -/
theorem appendNamespace_unchanged (pName ns : String) (h : NoProfileWord pName.data) :
    appendNamespaceToDuplicateSections pName ns = pName :=
  appendNamespace_noMatch pName ns h

/-- Instance of C13 on the names `foo`, `profile` and `profilefoo`. -/
theorem appendNamespace_unchanged_witness :
    appendNamespaceToDuplicateSections "foo" "repo" = "foo" ∧
      appendNamespaceToDuplicateSections "profile" "repo" = "profile" ∧
      appendNamespaceToDuplicateSections "profilefoo" "repo" = "profilefoo" :=
  ⟨appendNamespace_unchanged "foo" "repo" (NoProfileWord_of_hasProfileWord _ (by decide)),
    appendNamespace_unchanged "profile" "repo" (NoProfileWord_of_hasProfileWord _ (by decide)),
    appendNamespace_unchanged "profilefoo" "repo"
      (NoProfileWord_of_hasProfileWord _ (by decide))⟩

/-- C14, as stated, fails: with an empty repository name and the subpath `sub` the
namespace is `_sub`, with a leading `_`, and not the join `sub` of the non-empty
components. -/
theorem formatURLToNamespace_empty_repo :
    formatURLToNamespace sampleNoRepo "https://example.com" = "_sub" ∧
      Join (nonEmptyComponents (sampleNoRepo.parseGitURL "https://example.com")) "_" = "sub" ∧
      formatURLToNamespace sampleNoRepo "https://example.com" ≠
        Join (nonEmptyComponents (sampleNoRepo.parseGitURL "https://example.com")) "_" := by
  decide

/-- C14, amended: the namespace is the `_`-join of the repository name, taken always,
and of those of subpath and file name that are not empty; when the repository name is
not empty, or subpath and file name are both empty, this is the `_`-join of the
non-empty components in the order repository, subpath, file name. -/
theorem formatURLToNamespace_join (env : Collaborators) (repoURL : String) :
    formatURLToNamespace env repoURL =
        Join ((env.parseGitURL repoURL).Repo ::
          [(env.parseGitURL repoURL).Subpath, (env.parseGitURL repoURL).Filename].filter
            (fun c => c != "")) "_" ∧
      (((env.parseGitURL repoURL).Repo ≠ "" ∨
          ((env.parseGitURL repoURL).Subpath = "" ∧ (env.parseGitURL repoURL).Filename = "")) →
        formatURLToNamespace env repoURL =
          Join (nonEmptyComponents (env.parseGitURL repoURL)) "_") := by
  unfold formatURLToNamespace nonEmptyComponents
  generalize env.parseGitURL repoURL = u
  obtain ⟨r, s, f⟩ := u
  simp only
  have hb : ∀ c : String, (c != "") = !decide (c = "") := fun c => by
    by_cases h : c = "" <;> simp [h]
  by_cases hs : s = "" <;> by_cases hf : f = "" <;> by_cases hr : r = "" <;>
    simp [hs, hf, hr, Join, List.filter_cons, hb]

/-- Instance of C14, amended: repository `repo`, no subpath, file name `granted.yml`. -/
theorem formatURLToNamespace_join_witness :
    formatURLToNamespace sampleRepoFile "https://example.com" = "repo_granted.yml" ∧
    (formatURLToNamespace sampleRepoFile "https://example.com" =
        Join ((sampleRepoFile.parseGitURL "https://example.com").Repo ::
          [(sampleRepoFile.parseGitURL "https://example.com").Subpath,
            (sampleRepoFile.parseGitURL "https://example.com").Filename].filter
            (fun c => c != "")) "_" ∧
      formatURLToNamespace sampleRepoFile "https://example.com" =
          Join (nonEmptyComponents (sampleRepoFile.parseGitURL "https://example.com")) "_") :=
  ⟨by decide,
    (formatURLToNamespace_join sampleRepoFile "https://example.com").1,
    (formatURLToNamespace_join sampleRepoFile "https://example.com").2
      (Or.inl (by decide))⟩

/-- C15: the sections `generateNewRegistrySection` sets out to create are, in order, the
start marker, the copies under their own or their namespaced names, and the end marker
(`generatedBlock`).  When the sections `pre` before one of them, `s`, were created, and
the document, which then is the target followed by `pre`, has a section of the name of
`s`, the function returns the duplicate-section error for that name, and the document is
left as the target followed by `pre`: no section after `s` is created. -/
theorem regenerate_duplicate_fails (env : Collaborators) (configFile clonedFile : File)
    (repoURL : String) (isFirstSection : Bool) (pre post : List Section) (s : Section)
    (hblock : generatedBlock env configFile clonedFile repoURL isFirstSection =
      pre ++ s :: post)
    (hpre : (SectionStrings pre).Nodup ∧
      ∀ n ∈ SectionStrings pre, n ∉ SectionStrings configFile)
    (hs : s.name ∈ SectionStrings (configFile ++ pre)) :
    generateNewRegistrySection env configFile clonedFile repoURL isFirstSection =
        .error (.duplicateSection s.name) ∧
      generateNewRegistrySectionLive env configFile clonedFile repoURL isFirstSection =
        (configFile ++ pre, some (.duplicateSection s.name)) := by
  have hlive : generateNewRegistrySectionLive env configFile clonedFile repoURL isFirstSection
      = (configFile ++ pre, some (.duplicateSection s.name)) := by
    rw [generateNewRegistrySectionLive_eq, hblock]
    exact createAll_stops configFile pre post s hpre hs
  refine ⟨?_, hlive⟩
  rw [generateNewRegistrySection_returned, hlive]
  rfl

/-- Instance of C15: the regeneration run a second time on the document the first run
left, with no removal between the two: it fails at the start marker and nothing is
copied. -/
theorem regenerate_duplicate_fails_witness :
    generateNewRegistrySection sampleCollaborators sampleTarget sampleCloned
        "github.com/org/repo" true = .ok sampleGenerated ∧
    (generateNewRegistrySection sampleCollaborators sampleGenerated sampleCloned
        "github.com/org/repo" true =
        .error (.duplicateSection
          (startSection sampleCollaborators "github.com/org/repo" true).name) ∧
      generateNewRegistrySectionLive sampleCollaborators sampleGenerated sampleCloned
        "github.com/org/repo" true =
        (sampleGenerated ++ [], some (.duplicateSection
          (startSection sampleCollaborators "github.com/org/repo" true).name))) :=
  ⟨sample_generate,
    regenerate_duplicate_fails sampleCollaborators sampleGenerated sampleCloned
      "github.com/org/repo" true []
      (generatedBlock sampleCollaborators sampleGenerated sampleCloned
        "github.com/org/repo" true).tail
      (startSection sampleCollaborators "github.com/org/repo" true)
      (by rfl) (by decide) (by decide)⟩

/-- C16: what `getGrantedGeneratedSections` and `getGeneratedSectionByRegistryURL` return
is a sublist of the sections of the document, so in document order and with no section
taken twice, and holds no default section; a default section is skipped in either state
of the flag and leaves the flag as it is. -/
theorem scanners_sublist_no_default (config : File) (repoURL : String) :
    (getGrantedGeneratedSections config).Sublist config ∧
      (∀ s ∈ getGrantedGeneratedSections config, s.name ≠ DefaultSection) ∧
      (getGeneratedSectionByRegistryURL config repoURL).Sublist config ∧
      (∀ s ∈ getGeneratedSectionByRegistryURL config repoURL, s.name ≠ DefaultSection) ∧
      ∀ (sM eM : String) (flag : Bool) (d : Section) (rest : List Section),
        d.name = DefaultSection →
          scanSections sM eM flag (d :: rest) = scanSections sM eM flag rest := by
  refine ⟨scanSections_sublist _ _ _ _, scanSections_not_default _ _ _ _,
    scanSections_sublist _ _ _ _, scanSections_not_default _ _ _ _, ?_⟩
  intro sM eM flag d rest hd
  rw [scanSections, if_pos hd]

/-- Instance of C16 on a document with two blocks, filtered by `repoA`. -/
theorem scanners_sublist_no_default_witness :
    getGeneratedSectionByRegistryURL sampleTwoBlocks "repoA" =
        [⟨"granted_registry_start repoA", "", []⟩, ⟨"profile a", "", []⟩,
          ⟨"granted_registry_end repoA", "", []⟩] ∧
      (getGrantedGeneratedSections sampleTwoBlocks).Sublist sampleTwoBlocks ∧
      (getGeneratedSectionByRegistryURL sampleTwoBlocks "repoA").Sublist sampleTwoBlocks :=
  ⟨by decide, (scanners_sublist_no_default sampleTwoBlocks "repoA").1,
    (scanners_sublist_no_default sampleTwoBlocks "repoA").2.2.1⟩

/-- C17, as stated, fails: the cloned section `profile foo` has the comment `# shared` and
collides with the target; the one section created for it, `profile repo.foo`, has the
comment made of the notice, a full stop, a blank, a newline and `# shared`, which is not
the notice followed by a newline and `# shared`. -/
theorem collision_comment_not_newline_alone :
    generateNewRegistrySection sampleCollaborators sampleTarget sampleClonedCommented
        "github.com/org/repo" false = .ok sampleGeneratedCommented ∧
      ((sampleGeneratedCommented.filter (fun r => r.name == "profile repo.foo")).map
          (fun r => r.comment) = [collisionNotice ++ ". \n" ++ "# shared"]) ∧
      (⟨"profile repo.foo", collisionNotice ++ "\n" ++ "# shared",
          [("region", "us-east-1")]⟩ : Section) ∉ sampleGeneratedCommented ∧
      collisionNotice ++ ". \n" ++ "# shared" ≠ collisionNotice ++ "\n" ++ "# shared" :=
  ⟨by rfl, by decide, by decide, by decide⟩

/-- C17, amended: after a successful regeneration, a copied section of the cloned file
whose name was in the snapshot of names is in the result under its namespaced name, with
its keys and a comment that begins with the notice: the notice alone when the section has
no comment, otherwise the notice, then a full stop, a blank and a newline, then the
comment of the section as it is.  A copied section whose name was not in the snapshot is
in the result as it is, comment included. -/
theorem collision_comment (env : Collaborators) (configFile clonedFile : File)
    (repoURL : String) (isFirstSection : Bool) (D : File) (sec : Section)
    (hsec : sec ∈ clonedFile) (hc : isCopied env sec = true)
    (hok : generateNewRegistrySection env configFile clonedFile repoURL isFirstSection
      = .ok D) :
    (sec.name ∈ SectionStrings configFile ++ ["granted_registry_start " ++ repoURL] →
      (⟨appendNamespaceToDuplicateSections sec.name (formatURLToNamespace env repoURL),
          if sec.comment = "" then collisionNotice
            else collisionNotice ++ ". \n" ++ sec.comment,
          sec.keys⟩ : Section) ∈ D ∧
        collisionNotice.data <+:
          (if sec.comment = "" then collisionNotice
            else collisionNotice ++ ". \n" ++ sec.comment).data) ∧
      (sec.name ∉ SectionStrings configFile ++ ["granted_registry_start " ++ repoURL] →
        (⟨sec.name, sec.comment, sec.keys⟩ : Section) ∈ D) := by
  rw [generateNewRegistrySection_ok_iff] at hok
  obtain ⟨-, rfl⟩ := hok
  have hmem : copyOf (SectionStrings configFile ++ ["granted_registry_start " ++ repoURL])
      (formatURLToNamespace env repoURL) sec ∈
      configFile ++ generatedBlock env configFile clonedFile repoURL isFirstSection := by
    apply List.mem_append_right
    unfold generatedBlock copiedInto copiedSections
    simp only [List.cons_append, List.mem_cons, List.mem_append, List.mem_map,
      List.mem_filter]
    exact Or.inr (Or.inl ⟨sec, ⟨hsec, hc⟩, rfl⟩)
  constructor
  · intro hin
    have hcol : Contains (SectionStrings configFile ++ ["granted_registry_start " ++ repoURL])
        sec.name = true := (Contains_iff _ _).2 hin
    constructor
    · have e : copyOf (SectionStrings configFile ++ ["granted_registry_start " ++ repoURL])
          (formatURLToNamespace env repoURL) sec =
          ⟨appendNamespaceToDuplicateSections sec.name (formatURLToNamespace env repoURL),
            if sec.comment = "" then collisionNotice
              else collisionNotice ++ ". \n" ++ sec.comment, sec.keys⟩ := by
        simp only [copyOf, hcol, if_true, collisionComment_eq]
        rfl
      rw [← e]
      exact hmem
    · split
      · exact List.prefix_refl _
      · rw [String.append_assoc, String.data_append]
        exact List.prefix_append _ _
  · intro hnin
    have hcol : ¬ Contains (SectionStrings configFile ++ ["granted_registry_start " ++ repoURL])
        sec.name = true := fun h => hnin ((Contains_iff _ _).1 h)
    have e : copyOf (SectionStrings configFile ++ ["granted_registry_start " ++ repoURL])
        (formatURLToNamespace env repoURL) sec = ⟨sec.name, sec.comment, sec.keys⟩ := by
      simp [copyOf, hcol]
    rw [← e]
    exact hmem

/-- Instance of C17: `profile foo` collides and has the comment `# shared`, `profile bar`
does not collide. -/
theorem collision_comment_witness :
    generateNewRegistrySection sampleCollaborators sampleTarget sampleClonedCommented
        "github.com/org/repo" false = .ok sampleGeneratedCommented ∧
    (⟨"profile repo.foo", "# profile name has been prefixed due to duplication. \n# shared",
        [("region", "us-east-1")]⟩ : Section) ∈ sampleGeneratedCommented ∧
    (⟨"profile bar", "# other", [("region", "us-west-2")]⟩ : Section) ∈
      sampleGeneratedCommented :=
  ⟨by rfl,
    ((collision_comment sampleCollaborators sampleTarget sampleClonedCommented
      "github.com/org/repo" false sampleGeneratedCommented
      ⟨"profile foo", "# shared", [("region", "us-east-1")]⟩ (by decide) (by decide)
      (by rfl)).1 (by decide)).1,
    (collision_comment sampleCollaborators sampleTarget sampleClonedCommented
      "github.com/org/repo" false sampleGeneratedCommented
      ⟨"profile bar", "# other", [("region", "us-west-2")]⟩ (by decide) (by decide)
      (by rfl)).2 (by decide)⟩

/-- C18: a section whose name begins with `granted_registry_end` is returned by the scan
without filter wherever it stands, and after it the flag is unset: the sections without
marker name that follow it are not returned and the rest of the document is scanned as
from its start.  When no marker precedes it, the flag was unset already and the result
begins with the end marker. -/
theorem stray_end_marker (pre mid rest : List Section) (e : Section)
    (he : HasPrefix e.name "granted_registry_end" = true) (hmid : Unmarked mid) :
    e ∈ getGrantedGeneratedSections (pre ++ e :: (mid ++ rest)) ∧
      getGrantedGeneratedSections (pre ++ e :: (mid ++ rest)) =
        getGrantedGeneratedSections pre ++ e :: getGrantedGeneratedSections rest ∧
      (Unmarked pre →
        getGrantedGeneratedSections (pre ++ e :: (mid ++ rest)) =
          e :: getGrantedGeneratedSections rest) := by
  have key : getGrantedGeneratedSections (pre ++ e :: (mid ++ rest)) =
      getGrantedGeneratedSections pre ++ e :: getGrantedGeneratedSections rest := by
    unfold getGrantedGeneratedSections
    obtain ⟨b2, h⟩ := scanSections_append "granted_registry_start" "granted_registry_end"
      pre false
    rw [h, scanSections_endMarker _ _ _ he, Unmarked_skip _ _ hmid]
  refine ⟨?_, key, ?_⟩
  · rw [key]; simp
  · intro hpre
    rw [key]
    have : getGrantedGeneratedSections pre = [] := by
      unfold getGrantedGeneratedSections
      have := Unmarked_skip pre [] hpre
      rw [List.append_nil] at this
      rw [this]; rfl
    rw [this, List.nil_append]

/-- Instance of C18: the document `a`, `granted_registry_end X`, `b`. -/
theorem stray_end_marker_witness :
    getGrantedGeneratedSections sampleStrayEnd = [⟨"granted_registry_end X", "", []⟩] ∧
    (⟨"granted_registry_end X", "", []⟩ : Section) ∈
        getGrantedGeneratedSections
          ([⟨"a", "", []⟩] ++ ⟨"granted_registry_end X", "", []⟩ :: ([⟨"b", "", []⟩] ++ [])) ∧
    getGrantedGeneratedSections
        ([⟨"a", "", []⟩] ++ ⟨"granted_registry_end X", "", []⟩ :: ([⟨"b", "", []⟩] ++ [])) =
      ⟨"granted_registry_end X", "", []⟩ :: getGrantedGeneratedSections [] :=
  ⟨by decide,
    (stray_end_marker [⟨"a", "", []⟩] [⟨"b", "", []⟩] [] ⟨"granted_registry_end X", "", []⟩
      (by decide) (by decide)).1,
    (stray_end_marker [⟨"a", "", []⟩] [⟨"b", "", []⟩] [] ⟨"granted_registry_end X", "", []⟩
      (by decide) (by decide)).2.2 (by decide)⟩

/-- C19: when a section named with the start word is followed by no section named with
the end word, the scan without filter returns it and every section after it other than
the default one; and when at least one such section follows, `removeAutogeneratedProfiles`
deletes the marker and all of them: of the marker and what follows only default sections
are left. -/
theorem unclosed_start_marker (pre post : List Section) (s : Section)
    (hs : HasPrefix s.name "granted_registry_start" = true)
    (hpost : ∀ t ∈ post, HasPrefix t.name "granted_registry_end" = false) :
    getGrantedGeneratedSections (pre ++ s :: post) =
        getGrantedGeneratedSections pre ++
          s :: post.filter (fun t => t.name != DefaultSection) ∧
      ((∃ t ∈ post, t.name ≠ DefaultSection) →
        removeAutogeneratedProfiles (pre ++ s :: post) =
          pre.filter (fun t => decide
            (t.name ∉ SectionStrings (getGrantedGeneratedSections (pre ++ s :: post)))) ++
          post.filter (fun t => t.name == DefaultSection)) := by
  have key : getGrantedGeneratedSections (pre ++ s :: post) =
      getGrantedGeneratedSections pre ++
        s :: post.filter (fun t => t.name != DefaultSection) := by
    unfold getGrantedGeneratedSections
    obtain ⟨b2, h⟩ := scanSections_append "granted_registry_start" "granted_registry_end"
      pre false
    have hin := scanSections_inside_filter "granted_registry_start" "granted_registry_end"
      post [] hpost
    rw [List.append_nil] at hin
    rw [h, scanSections_startMarker _ _ _ hs, hin]
    simp [scanSections]
  refine ⟨key, ?_⟩
  rintro ⟨t, ht, htd⟩
  have hlen : 1 < (getGrantedGeneratedSections (pre ++ s :: post)).length := by
    rw [key]
    have : t ∈ post.filter (fun t => t.name != DefaultSection) := by
      rw [List.mem_filter]; exact ⟨ht, by simpa using htd⟩
    have := List.length_pos_of_mem this
    simp only [List.length_append, List.length_cons]
    omega
  have hnd : ∀ x ∈ getGrantedGeneratedSections (pre ++ s :: post), x.name ≠ DefaultSection :=
    scanSections_not_default _ _ _ _
  unfold removeAutogeneratedProfiles
  simp only
  rw [if_pos hlen, deleteSections_eq_filter, List.filter_append]
  congr 1
  rw [List.filter_cons]
  have hsin : s.name ∈ SectionStrings (getGrantedGeneratedSections (pre ++ s :: post)) := by
    rw [key]; simp [SectionStrings]
  simp only [hsin, not_true_eq_false, decide_False]
  apply List.filter_congr
  intro x hx
  by_cases hxd : x.name = DefaultSection
  · have : x.name ∉ SectionStrings (getGrantedGeneratedSections (pre ++ s :: post)) := by
      intro hin
      simp only [SectionStrings, List.mem_map] at hin
      obtain ⟨y, hy, hyx⟩ := hin
      exact hnd y hy (hyx.trans hxd)
    rw [hxd] at this
    simp [this, hxd]
  · have : x.name ∈ SectionStrings (getGrantedGeneratedSections (pre ++ s :: post)) := by
      rw [key]
      apply List.mem_map_of_mem
      apply List.mem_append_right
      apply List.mem_cons_of_mem
      rw [List.mem_filter]
      exact ⟨hx, by simpa using hxd⟩
    simp [this, hxd]

/-- Instance of C19: a start marker followed by two profiles and no end marker. -/
theorem unclosed_start_marker_witness :
    removeAutogeneratedProfiles sampleUnclosed =
        [⟨"DEFAULT", "", []⟩, ⟨"profile mine", "", []⟩] ∧
    (getGrantedGeneratedSections
        ([⟨"DEFAULT", "", []⟩, ⟨"profile mine", "", []⟩] ++
          ⟨"granted_registry_start https://github.com/a/b", "", []⟩ ::
            [⟨"profile x", "", []⟩, ⟨"profile y", "", []⟩]) =
        getGrantedGeneratedSections [⟨"DEFAULT", "", []⟩, ⟨"profile mine", "", []⟩] ++
          ⟨"granted_registry_start https://github.com/a/b", "", []⟩ ::
            ([⟨"profile x", "", []⟩, ⟨"profile y", "", []⟩] : List Section).filter
              (fun t => t.name != DefaultSection)) ∧
    removeAutogeneratedProfiles
        ([⟨"DEFAULT", "", []⟩, ⟨"profile mine", "", []⟩] ++
          ⟨"granted_registry_start https://github.com/a/b", "", []⟩ ::
            [⟨"profile x", "", []⟩, ⟨"profile y", "", []⟩]) =
      ([⟨"DEFAULT", "", []⟩, ⟨"profile mine", "", []⟩] : List Section).filter
          (fun t => decide (t.name ∉ SectionStrings (getGrantedGeneratedSections
            ([⟨"DEFAULT", "", []⟩, ⟨"profile mine", "", []⟩] ++
              ⟨"granted_registry_start https://github.com/a/b", "", []⟩ ::
                [⟨"profile x", "", []⟩, ⟨"profile y", "", []⟩])))) ++
        ([⟨"profile x", "", []⟩, ⟨"profile y", "", []⟩] : List Section).filter
          (fun t => t.name == DefaultSection) :=
  ⟨by decide,
    (unclosed_start_marker [⟨"DEFAULT", "", []⟩, ⟨"profile mine", "", []⟩]
      [⟨"profile x", "", []⟩, ⟨"profile y", "", []⟩]
      ⟨"granted_registry_start https://github.com/a/b", "", []⟩ (by decide) (by decide)).1,
    (unclosed_start_marker [⟨"DEFAULT", "", []⟩, ⟨"profile mine", "", []⟩]
      [⟨"profile x", "", []⟩, ⟨"profile y", "", []⟩]
      ⟨"granted_registry_start https://github.com/a/b", "", []⟩ (by decide) (by decide)).2
      ⟨⟨"profile x", "", []⟩, by decide, by decide⟩⟩

/-- C20: when the target has a section of the name of a copied section of the cloned
file and that name holds no `profile` followed by whitespace,
`appendNamespaceToDuplicateSections` returns the name itself and
`generateNewRegistrySection` returns a duplicate-section error: there is no result with
a namespaced copy. -/
theorem collision_without_profile_word (env : Collaborators) (configFile clonedFile : File)
    (repoURL : String) (isFirstSection : Bool) (t sec : Section)
    (ht : t ∈ configFile) (hsec : sec ∈ clonedFile) (hname : sec.name = t.name)
    (hc : isCopied env sec = true) (hno : NoProfileWord sec.name.data) :
    appendNamespaceToDuplicateSections sec.name (formatURLToNamespace env repoURL) = sec.name ∧
      ∃ n, generateNewRegistrySection env configFile clonedFile repoURL isFirstSection =
        .error (.duplicateSection n) := by
  have hsame := appendNamespace_noMatch sec.name (formatURLToNamespace env repoURL) hno
  refine ⟨hsame, ?_⟩
  have hin : sec.name ∈ SectionStrings configFile := by
    rw [hname]; exact List.mem_map_of_mem _ ht
  cases hg : generateNewRegistrySection env configFile clonedFile repoURL isFirstSection with
  | error e =>
    cases e with
    | duplicateSection n => exact ⟨n, rfl⟩
  | ok D =>
    exfalso
    rw [generateNewRegistrySection_ok_iff] at hg
    obtain ⟨hfresh, -⟩ := hg
    have hcol : Contains (SectionStrings configFile ++ ["granted_registry_start " ++ repoURL])
        sec.name = true := (Contains_iff _ _).2 (List.mem_append_left _ hin)
    have hcopy : (copyOf (SectionStrings configFile ++ ["granted_registry_start " ++ repoURL])
        (formatURLToNamespace env repoURL) sec).name = sec.name := by
      simp only [copyOf, hcol, if_true, hsame]
    have hmem : sec.name ∈
        SectionStrings (generatedBlock env configFile clonedFile repoURL false) := by
      rw [SectionStrings_generatedBlock, ← hcopy]
      simp only [List.cons_append, List.mem_cons, List.mem_append]
      refine Or.inr (Or.inl ?_)
      apply List.mem_map_of_mem
      unfold copiedInto copiedSections
      exact List.mem_map_of_mem _ (List.mem_filter.2 ⟨hsec, hc⟩)
    exact hfresh.2 _ hmem hin

/-- Instance of C20: the section `foo` in the target and in the cloned file. -/
theorem collision_without_profile_word_witness :
    generateNewRegistrySection sampleCollaborators sampleCredentials sampleClonedCredentials
        "github.com/org/repo" true = .error (.duplicateSection "foo") ∧
    (appendNamespaceToDuplicateSections "foo"
        (formatURLToNamespace sampleCollaborators "github.com/org/repo") = "foo" ∧
      ∃ n, generateNewRegistrySection sampleCollaborators sampleCredentials
        sampleClonedCredentials "github.com/org/repo" true = .error (.duplicateSection n)) :=
  ⟨by rfl,
    collision_without_profile_word sampleCollaborators sampleCredentials
      sampleClonedCredentials "github.com/org/repo" true
      ⟨"foo", "", [("aws_access_key_id", "AKIA")]⟩ ⟨"foo", "", [("aws_access_key_id", "AKIB")]⟩
      (by decide) (by decide) rfl (by decide)
      (NoProfileWord_of_hasProfileWord _ (by decide))⟩

end Registry
